import Mathlib

/-!
Verification development for the imgmaster photo-library organizer.

This file gives a shallow embedding, in Lean 4, of the photo-group data
model, the metadata aggregation and the rename-planning engine of the
repository (src/models/photo.py, src/models/metadata.py,
src/models/photo_group.py, src/services/rename_service.py), and settles a
list of claims about that code.

Modelling conventions:
- Python dicts are modelled as association lists that preserve insertion
  order; assigning to an existing key replaces the value in place, a new
  key is appended at the end, exactly as CPython dicts behave.
- Python `datetime` values are modelled by a six-field record compared
  lexicographically (the comparison Python uses on datetime objects).
- Python truthiness is modelled explicitly per field type: `None` and the
  empty string are falsy for string fields, `None`, `0` and `0.0` are
  falsy for numeric fields, `None` and `False` are falsy for booleans,
  and `datetime` objects are always truthy. Numeric float fields
  (aperture, focal_length) are carried as `Int`; no claim depends on
  fractional values.
- `MetadataExtractor.extract_from_photo` / `extract_from_xmp` read the
  filesystem; the record such a call would return for a file is carried
  on the `Photo` itself (field `meta`). A failed extraction returns an
  all-empty record in the Python code, which the caller then skips, so
  the all-empty record also covers failures.
- Python `sorted` is a stable sort; it is modelled by a stable insertion
  sort over the same key, which computes the identical list because the
  sort keys form a total preorder and a stable sort of a list by a total
  preorder is unique.
- Fallible code is modelled with `Except String`; a raised exception is
  `Except.error` carrying the exception text, and a caller without a
  surrounding try/except propagates it. In particular the constructor
  call at src/models/photo_group.py line 272 omits the required
  `keywords` field of the `PhotoMetadataWithSource` dataclass, so every
  cache-miss call of `PhotoGroup.extract_metadata` raises `TypeError`
  before the cache assignment; the embedding models that branch as
  `Except.error keywordsTypeError`. The aggregation helpers the method
  runs before the failing constructor do execute and return inside the
  method; they are embedded and verified separately on explicit source
  lists.
-/

namespace ImgMaster

/-! ## String utilities modelling the Python `str` operations used -/

/-- Split a character list at every occurrence of `c`; mirrors Python
`str.split(c)` (so `"".split(c) = [""]` and a trailing separator yields a
trailing empty part). -/
def splitOnChar (c : Char) : List Char → List (List Char)
  | [] => [[]]
  | x :: xs =>
    if x = c then [] :: splitOnChar c xs
    else
      match splitOnChar c xs with
      | [] => [[x]]
      | h :: t => (x :: h) :: t

/-- Join character-list parts with a single separator character; mirrors
Python `c.join(parts)`. -/
def joinWithChar (c : Char) : List (List Char) → List Char
  | [] => []
  | [p] => p
  | p :: rest => p ++ c :: joinWithChar c rest

/-- Replace every non-overlapping occurrence of `pat` by `rep`, scanning
left to right; mirrors Python `str.replace` for a non-empty pattern. The
fuel argument is the length of the remaining input, which bounds the
number of recursion steps. -/
def replaceCharsAux (pat rep : List Char) : Nat → List Char → List Char
  | 0, s => s
  | _ + 1, [] => []
  | fuel + 1, c :: cs =>
    if pat ≠ [] ∧ pat.isPrefixOf (c :: cs) then
      rep ++ replaceCharsAux pat rep fuel ((c :: cs).drop pat.length)
    else
      c :: replaceCharsAux pat rep fuel cs

/-- Python `s.replace(pat, rep)` on strings. -/
def strReplace (s pat rep : String) : String :=
  String.mk (replaceCharsAux pat.data rep.data s.data.length s.data)

/-- Python `pat in s` (substring containment) for a non-empty pattern. -/
def containsSubstrB (s pat : String) : Bool :=
  (List.range (s.data.length + 1)).any (fun i => pat.data.isPrefixOf (s.data.drop i))

/-- Python `c in s` for a single character. -/
def containsCharB (s : String) (c : Char) : Bool :=
  s.data.contains c

/-- ASCII lower-casing of one character. The Python code applies
`str.lower()` to file extensions, which are ASCII; this models that
use. -/
def lowerChar (c : Char) : Char :=
  if 65 ≤ c.toNat ∧ c.toNat ≤ 90 then Char.ofNat (c.toNat + 32) else c

/-- Python `s.lower()` for the ASCII strings it is applied to here. -/
def strLower (s : String) : String :=
  String.mk (s.data.map lowerChar)

/-- Zero-pad the decimal representation of `n` to width `w`; mirrors
Python format specifiers like `f"{n:03d}"` (no truncation). -/
def padNat (w : Nat) (n : Nat) : String :=
  let s := toString n
  String.mk (List.replicate (w - s.data.length) '0' ++ s.data)

/-! ## Format classification (src/models/photo.py) -/

inductive FormatClass where
  | jpeg
  | raw
  | live_photo
  | heic
  | sidecar
  | other
deriving DecidableEq, Repr

/-- Photo.JPEG_FORMATS. -/
def JPEG_FORMATS : List String := [".jpg", ".jpeg"]

/-- Photo.RAW_FORMATS. -/
def RAW_FORMATS : List String :=
  [".cr2", ".cr3", ".crw", ".nef", ".nrw", ".arw", ".srf", ".sr2", ".raf",
   ".orf", ".rw2", ".pef", ".ptx", ".rwl", ".dcr", ".kdc", ".mrw", ".srw",
   ".3fr", ".mef", ".iiq", ".x3f", ".dng", ".raw"]

/-- Photo.LIVE_PHOTO_FORMATS. -/
def LIVE_PHOTO_FORMATS : List String := [".mov"]

/-- Photo.HEIC_FORMATS. -/
def HEIC_FORMATS : List String := [".heif", ".heic", ".hif"]

/-- Photo.SIDECAR_FORMATS. -/
def SIDECAR_FORMATS : List String :=
  [".xmp", ".xml", ".thm", ".pp3", ".dop", ".pto", ".lrtemplate", ".xmp.xml"]

/-- Photo.OTHER_PHOTO_FORMATS. -/
def OTHER_PHOTO_FORMATS : List String :=
  [".png", ".gif", ".bmp", ".tiff", ".tif", ".webp", ".ico", ".svg"]

/-- Normalize an extension the way `Photo.get_format_classification` does:
lower-case it and ensure a leading dot. -/
def normalizeExt (extension : String) : String :=
  let ext := strLower extension
  if ext.data.head? = some '.' then ext else String.mk ('.' :: ext.data)

/-- Photo.get_format_classification: classify an extension, `none` when it
is not a supported format. -/
def get_format_classification (extension : String) : Option FormatClass :=
  let ext := normalizeExt extension
  if JPEG_FORMATS.contains ext then some .jpeg
  else if RAW_FORMATS.contains ext then some .raw
  else if LIVE_PHOTO_FORMATS.contains ext then some .live_photo
  else if HEIC_FORMATS.contains ext then some .heic
  else if SIDECAR_FORMATS.contains ext then some .sidecar
  else if OTHER_PHOTO_FORMATS.contains ext then some .other
  else none

/-! ## Dates (Python `datetime`) -/

/-- Model of a Python `datetime`: the six components relevant to the
program. Python compares datetimes lexicographically by component. -/
structure DateTime where
  year : Nat
  month : Nat
  day : Nat
  hour : Nat
  minute : Nat
  second : Nat
deriving DecidableEq, Repr

/-- Python `datetime.min` (year 1, month 1, day 1, midnight). -/
def dtMin : DateTime := ⟨1, 1, 1, 0, 0, 0⟩

/-- The component vector used for lexicographic comparison. -/
def DateTime.vec (d : DateTime) : List Nat :=
  [d.year, d.month, d.day, d.hour, d.minute, d.second]

/-- Lexicographic strict order on equal-length Nat vectors. -/
def natLexLt : List Nat → List Nat → Bool
  | [], _ => false
  | _ :: _, [] => false
  | x :: xs, y :: ys => if x ≠ y then decide (x < y) else natLexLt xs ys

/-- Lexicographic (non-strict) order on equal-length Nat vectors. -/
def natLexLe : List Nat → List Nat → Bool
  | [], _ => true
  | _ :: _, [] => false
  | x :: xs, y :: ys => if x ≠ y then decide (x < y) else natLexLe xs ys

/-- Python `d1 < d2` on datetimes. -/
def DateTime.ltb (a b : DateTime) : Bool := natLexLt a.vec b.vec

/-! ## Metadata records (src/models/metadata.py) -/

structure CameraInfo where
  make : Option String := none
  model : Option String := none
  lens_model : Option String := none
  serial_number : Option String := none
deriving DecidableEq, Repr

structure DateInfo where
  date_taken : Option DateTime := none
  date_modified : Option DateTime := none
  date_digitized : Option DateTime := none
deriving DecidableEq, Repr

structure TechnicalInfo where
  iso : Option Int := none
  aperture : Option Int := none
  shutter_speed : Option String := none
  focal_length : Option Int := none
  focal_length_35mm : Option Int := none
  flash_fired : Option Bool := none
deriving DecidableEq, Repr

structure KeywordInfo where
  keywords : List String := []
deriving DecidableEq, Repr

structure PhotoMetadata where
  camera : CameraInfo := {}
  dates : DateInfo := {}
  technical : TechnicalInfo := {}
  keywords : KeywordInfo := {}
  source_file : Option String := none
deriving DecidableEq, Repr

/-- Python truthiness of an optional string: `None` and `""` are falsy. -/
def truthyStr (o : Option String) : Bool :=
  match o with
  | none => false
  | some s => !(s == "")

/-- Python truthiness of an optional number: `None` and `0` are falsy. -/
def truthyInt (o : Option Int) : Bool :=
  match o with
  | none => false
  | some n => !(n == 0)

/-- Python truthiness of an optional bool: `None` and `False` are falsy. -/
def truthyBool (o : Option Bool) : Bool :=
  match o with
  | none => false
  | some b => b

/-- Python truthiness of an optional datetime: datetimes are always
truthy, so only `None` is falsy. -/
def truthyDate (o : Option DateTime) : Bool := o.isSome

/-- CameraInfo.is_empty. -/
def CameraInfo.is_empty (c : CameraInfo) : Bool :=
  !(truthyStr c.make || truthyStr c.model || truthyStr c.lens_model ||
    truthyStr c.serial_number)

/-- DateInfo.is_empty. -/
def DateInfo.is_empty (d : DateInfo) : Bool :=
  !(truthyDate d.date_taken || truthyDate d.date_modified || truthyDate d.date_digitized)

/-- TechnicalInfo.is_empty. -/
def TechnicalInfo.is_empty (t : TechnicalInfo) : Bool :=
  !(truthyInt t.iso || truthyInt t.aperture || truthyStr t.shutter_speed ||
    truthyInt t.focal_length || truthyInt t.focal_length_35mm || truthyBool t.flash_fired)

/-- KeywordInfo.is_empty. -/
def KeywordInfo.is_empty (k : KeywordInfo) : Bool :=
  k.keywords.isEmpty

/-- PhotoMetadata.is_empty. -/
def PhotoMetadata.is_empty (m : PhotoMetadata) : Bool :=
  m.camera.is_empty && m.dates.is_empty && m.technical.is_empty && m.keywords.is_empty

/-! ## Metadata records with source attribution -/

structure CameraInfoWithSource where
  make : Option String := none
  make_source : Option String := none
  model : Option String := none
  model_source : Option String := none
  lens_model : Option String := none
  lens_model_source : Option String := none
  serial_number : Option String := none
  serial_number_source : Option String := none
deriving DecidableEq, Repr

structure DateInfoWithSource where
  date_taken : Option DateTime := none
  date_taken_source : Option String := none
  date_modified : Option DateTime := none
  date_modified_source : Option String := none
  date_digitized : Option DateTime := none
  date_digitized_source : Option String := none
deriving DecidableEq, Repr

structure TechnicalInfoWithSource where
  iso : Option Int := none
  iso_source : Option String := none
  aperture : Option Int := none
  aperture_source : Option String := none
  shutter_speed : Option String := none
  shutter_speed_source : Option String := none
  focal_length : Option Int := none
  focal_length_source : Option String := none
  focal_length_35mm : Option Int := none
  focal_length_35mm_source : Option String := none
  flash_fired : Option Bool := none
  flash_fired_source : Option String := none
deriving DecidableEq, Repr

structure KeywordInfoWithSource where
  keywords : List String := []
  keywords_source : Option String := none
deriving DecidableEq, Repr

structure PhotoMetadataWithSource where
  camera : CameraInfoWithSource := {}
  dates : DateInfoWithSource := {}
  technical : TechnicalInfoWithSource := {}
  keywords : KeywordInfoWithSource := {}
  source_file : Option String := none
deriving DecidableEq, Repr

/-! ## Photo (src/models/photo.py) -/

/-- Model of one `Photo` object. `basename` is the filename stem,
`extension` the lower-cased suffix with its dot. `meta` is the metadata
record the `MetadataExtractor` would return for this file (see the
conventions at the top of this file). -/
structure Photo where
  basename : String
  extension : String
  meta : PhotoMetadata
deriving DecidableEq, Repr

/-- Photo.format_classification, derived from the extension exactly as in
the constructor. -/
def Photo.format_classification (p : Photo) : Option FormatClass :=
  get_format_classification p.extension

/-- Photo.filename (stem plus suffix). -/
def Photo.filename (p : Photo) : String :=
  p.basename ++ p.extension

/-! ## PhotoGroup (src/models/photo_group.py) -/

/-- Model of a `PhotoGroup`: the basename, the insertion-ordered
extension-to-Photo dictionary, and the metadata cache. -/
structure PhotoGroup where
  basename : String
  photos : List (String × Photo)
  metadata_cache : Option PhotoMetadataWithSource
deriving DecidableEq, Repr

/-- Assignment `d[k] = v` on an insertion-ordered dictionary: replace the
value in place when the key exists, otherwise append the binding. -/
def dictInsert (k : String) (v : Photo) : List (String × Photo) → List (String × Photo)
  | [] => [(k, v)]
  | (k', v') :: rest =>
    if k' == k then (k, v) :: rest else (k', v') :: dictInsert k v rest

/-- PhotoGroup.get_photos: the dictionary values in insertion order. -/
def PhotoGroup.get_photos (g : PhotoGroup) : List Photo :=
  g.photos.map Prod.snd

/-- PhotoGroup.add_photo. Raising `ValueError` is modelled by returning
`Except.error`; the Python object is left unchanged when the error is
raised, which the functional embedding expresses by not producing a new
group at all. On success the photo is inserted under its extension key
(overwriting any prior photo there) and the metadata cache is
invalidated. -/
def PhotoGroup.add_photo (g : PhotoGroup) (p : Photo) : Except String PhotoGroup :=
  if p.basename ≠ g.basename then
    .error ("Photo basename " ++ p.basename ++ " does not match group basename " ++ g.basename)
  else
    .ok { basename := g.basename
          photos := dictInsert p.extension p g.photos
          metadata_cache := none }

/-- PhotoGroup.has_format_type. -/
def PhotoGroup.has_format_type (g : PhotoGroup) (ft : FormatClass) : Bool :=
  g.get_photos.any (fun p => p.format_classification == some ft)

/-- PhotoGroup.is_valid: at least one JPEG, RAW, HEIC or other-format
photo. -/
def PhotoGroup.is_valid (g : PhotoGroup) : Bool :=
  g.has_format_type .jpeg || g.has_format_type .raw || g.has_format_type .heic ||
    g.has_format_type .other

/-- PhotoGroup.has_only_supplementary_files. -/
def PhotoGroup.has_only_supplementary_files (g : PhotoGroup) : Bool :=
  !g.is_valid && (g.has_format_type .sidecar || g.has_format_type .live_photo)

/-! ## Metadata aggregation (PhotoGroup.extract_metadata and helpers) -/

/-- One entry of the `metadata_sources` list built by
`PhotoGroup.extract_metadata`: the extracted record, the contributing
filename, and the source type tag (the Python code uses the strings
`photo` and `sidecar`; here the tag `isSidecar` is true for
`sidecar`). -/
structure MetaSource where
  meta : PhotoMetadata
  filename : String
  isSidecar : Bool
deriving DecidableEq, Repr

/-- The non-sidecar photos of the group, in insertion order
(format_classification is not the sidecar class). -/
def PhotoGroup.photo_files (g : PhotoGroup) : List Photo :=
  g.get_photos.filter (fun p => !(p.format_classification == some .sidecar))

/-- The sidecar photos of the group, in insertion order. -/
def PhotoGroup.sidecar_files (g : PhotoGroup) : List Photo :=
  g.get_photos.filter (fun p => p.format_classification == some .sidecar)

/-- The `metadata_sources` list of `PhotoGroup.extract_metadata`: first
every non-sidecar photo whose extracted record is non-empty, then every
sidecar with extension `.xmp`/`.xml` whose extracted record is
non-empty. -/
def PhotoGroup.metadata_sources (g : PhotoGroup) : List MetaSource :=
  (g.photo_files.filterMap (fun p =>
    if !p.meta.is_empty then some ⟨p.meta, p.filename, false⟩ else none))
  ++ (g.sidecar_files.filterMap (fun p =>
    if (strLower p.extension == ".xmp" || strLower p.extension == ".xml")
        && !p.meta.is_empty then
      some ⟨p.meta, p.filename, true⟩
    else none))

/-- The sorted call on metadata_sources keyed by tag-equals-sidecar: a stable
sort by a boolean key, which is exactly the false-key entries in order
followed by the true-key entries in order. -/
def sortSourcesByPriority (l : List MetaSource) : List MetaSource :=
  l.filter (fun s => !s.isSidecar) ++ l.filter (fun s => s.isSidecar)

/-- One iteration of the loop in
`PhotoGroup._aggregate_camera_info_with_source`. The Python loop body is
a sequence of four if-statements; each condition reads only the field it
guards, so the sequential updates are equivalent to this simultaneous
record build. -/
def camStep (c : CameraInfoWithSource) (s : MetaSource) : CameraInfoWithSource :=
  { make := if !truthyStr c.make && truthyStr s.meta.camera.make then
      s.meta.camera.make else c.make
    make_source := if !truthyStr c.make && truthyStr s.meta.camera.make then
      some s.filename else c.make_source
    model := if !truthyStr c.model && truthyStr s.meta.camera.model then
      s.meta.camera.model else c.model
    model_source := if !truthyStr c.model && truthyStr s.meta.camera.model then
      some s.filename else c.model_source
    lens_model := if !truthyStr c.lens_model && truthyStr s.meta.camera.lens_model then
      s.meta.camera.lens_model else c.lens_model
    lens_model_source := if !truthyStr c.lens_model && truthyStr s.meta.camera.lens_model then
      some s.filename else c.lens_model_source
    serial_number := if !truthyStr c.serial_number && truthyStr s.meta.camera.serial_number then
      s.meta.camera.serial_number else c.serial_number
    serial_number_source :=
      if !truthyStr c.serial_number && truthyStr s.meta.camera.serial_number then
        some s.filename else c.serial_number_source }

/-- PhotoGroup._aggregate_camera_info_with_source. -/
def aggregate_camera_info_with_source (l : List MetaSource) : CameraInfoWithSource :=
  (sortSourcesByPriority l).foldl camStep {}

/-- One iteration of the loop in
`PhotoGroup._aggregate_date_info_with_source`; same sequential-to-record
equivalence as `camStep`. A present datetime is always truthy. -/
def dateStep (d : DateInfoWithSource) (s : MetaSource) : DateInfoWithSource :=
  { date_taken := if !truthyDate d.date_taken && truthyDate s.meta.dates.date_taken then
      s.meta.dates.date_taken else d.date_taken
    date_taken_source := if !truthyDate d.date_taken && truthyDate s.meta.dates.date_taken then
      some s.filename else d.date_taken_source
    date_modified := if !truthyDate d.date_modified && truthyDate s.meta.dates.date_modified then
      s.meta.dates.date_modified else d.date_modified
    date_modified_source :=
      if !truthyDate d.date_modified && truthyDate s.meta.dates.date_modified then
        some s.filename else d.date_modified_source
    date_digitized :=
      if !truthyDate d.date_digitized && truthyDate s.meta.dates.date_digitized then
        s.meta.dates.date_digitized else d.date_digitized
    date_digitized_source :=
      if !truthyDate d.date_digitized && truthyDate s.meta.dates.date_digitized then
        some s.filename else d.date_digitized_source }

/-- PhotoGroup._aggregate_date_info_with_source. -/
def aggregate_date_info_with_source (l : List MetaSource) : DateInfoWithSource :=
  (sortSourcesByPriority l).foldl dateStep {}

/-- One iteration of the loop in
`PhotoGroup._aggregate_technical_info_with_source`; same
sequential-to-record equivalence. Every field uses Python truthiness on
both sides except `flash_fired`, which uses `is None` on the accumulator
and `is not None` on the source. -/
def techStep (t : TechnicalInfoWithSource) (s : MetaSource) : TechnicalInfoWithSource :=
  { iso := if !truthyInt t.iso && truthyInt s.meta.technical.iso then
      s.meta.technical.iso else t.iso
    iso_source := if !truthyInt t.iso && truthyInt s.meta.technical.iso then
      some s.filename else t.iso_source
    aperture := if !truthyInt t.aperture && truthyInt s.meta.technical.aperture then
      s.meta.technical.aperture else t.aperture
    aperture_source := if !truthyInt t.aperture && truthyInt s.meta.technical.aperture then
      some s.filename else t.aperture_source
    shutter_speed :=
      if !truthyStr t.shutter_speed && truthyStr s.meta.technical.shutter_speed then
        s.meta.technical.shutter_speed else t.shutter_speed
    shutter_speed_source :=
      if !truthyStr t.shutter_speed && truthyStr s.meta.technical.shutter_speed then
        some s.filename else t.shutter_speed_source
    focal_length :=
      if !truthyInt t.focal_length && truthyInt s.meta.technical.focal_length then
        s.meta.technical.focal_length else t.focal_length
    focal_length_source :=
      if !truthyInt t.focal_length && truthyInt s.meta.technical.focal_length then
        some s.filename else t.focal_length_source
    focal_length_35mm :=
      if !truthyInt t.focal_length_35mm && truthyInt s.meta.technical.focal_length_35mm then
        s.meta.technical.focal_length_35mm else t.focal_length_35mm
    focal_length_35mm_source :=
      if !truthyInt t.focal_length_35mm && truthyInt s.meta.technical.focal_length_35mm then
        some s.filename else t.focal_length_35mm_source
    flash_fired :=
      if t.flash_fired.isNone && s.meta.technical.flash_fired.isSome then
        s.meta.technical.flash_fired else t.flash_fired
    flash_fired_source :=
      if t.flash_fired.isNone && s.meta.technical.flash_fired.isSome then
        some s.filename else t.flash_fired_source }

/-- PhotoGroup._aggregate_technical_info_with_source. -/
def aggregate_technical_info_with_source (l : List MetaSource) : TechnicalInfoWithSource :=
  (sortSourcesByPriority l).foldl techStep {}

/-- The exception text of the `TypeError` raised by the constructor call at
src/models/photo_group.py line 272: `PhotoMetadataWithSource` is a dataclass
whose field `keywords` has no default value, and the call passes only
`camera`, `dates`, `technical` and `source_file`. -/
def keywordsTypeError : String :=
  "TypeError: PhotoMetadataWithSource missing 1 required positional argument: keywords"

/-- PhotoGroup.extract_metadata (without force_refresh). A cached aggregate
(a dataclass instance, hence always truthy) is returned as is. On a cache
miss the method builds `metadata_sources` and the three aggregates -
embedded as `aggregate_camera_info_with_source`,
`aggregate_date_info_with_source` and `aggregate_technical_info_with_source`
over `metadata_sources` and verified separately - and then executes the
statement at src/models/photo_group.py line 272, which constructs
`PhotoMetadataWithSource` without the required `keywords` argument: the
dataclass constructor raises `TypeError`, the cache assignment on its left
side never executes, and the call raises. The aggregation before that
statement has no observable effect besides the values the constructor would
have received, so the cache-miss branch of the method is exactly the raised
exception. In particular no execution of this method can ever populate the
cache, because the only statement assigning the cache is the failing one. -/
def PhotoGroup.extract_metadata (g : PhotoGroup) :
    Except String PhotoMetadataWithSource :=
  match g.metadata_cache with
  | some m => Except.ok m
  | none => Except.error keywordsTypeError

/-! ## Filename sanitization (PhotoRenameService._safe_filename) -/

/-- The characters replaced by `re.sub(r'[<>:"|\\?*]', '_', ...)`. Note
that neither `/` nor the space character is in this class. -/
def unsafeChar (c : Char) : Bool :=
  c = '<' || c = '>' || c = ':' || c = '"' || c = '|' || c = '\\' || c = '?' || c = '*'

/-- Step 1 of the sanitizer: map every unsafe character to an
underscore. -/
def replUnsafe (c : Char) : Char :=
  if unsafeChar c then '_' else c

/-- Step 2: `re.sub(r'_+', '_', ...)` collapses every run of underscores
to a single underscore. -/
def squeezeUnderscores : List Char → List Char
  | [] => []
  | c :: cs =>
    if c = '_' then
      if (squeezeUnderscores cs).head? = some '_' then squeezeUnderscores cs
      else c :: squeezeUnderscores cs
    else c :: squeezeUnderscores cs

/-- The characters stripped from both ends by the strip of underscore and space. -/
def trimChar (c : Char) : Bool := c = '_' || c = ' '

/-- Step 3: the strip of underscore and space removes both characters from both
ends. -/
def stripTrim (l : List Char) : List Char :=
  ((l.dropWhile trimChar).reverse.dropWhile trimChar).reverse

/-- PhotoRenameService._safe_filename. -/
def safe_filename (s : String) : String :=
  String.mk (stripTrim (squeezeUnderscores (s.data.map replUnsafe)))

/-! ## Base filename generation (PhotoRenameService._generate_base_filename) -/

/-- strftime with format %Y-%m-%d. -/
def fmtDate (dt : DateTime) : String :=
  padNat 4 dt.year ++ "-" ++ padNat 2 dt.month ++ "-" ++ padNat 2 dt.day

/-- strftime with format %Y-%m-%d_%H-%M-%S. -/
def fmtDateTimeStr (dt : DateTime) : String :=
  fmtDate dt ++ "_" ++ padNat 2 dt.hour ++ "-" ++ padNat 2 dt.minute ++ "-" ++
    padNat 2 dt.second

/-- The fallback for `{year}` when no date is available:
`basename.split('_')[0] if '_' in basename else basename`. -/
def yearFallback (basename : String) : String :=
  if containsCharB basename '_' then
    String.mk ((splitOnChar '_' basename.data).headD [])
  else basename

/-- The ordered replacement dictionary built by
`_generate_base_filename`. Python dicts iterate in insertion order:
first the eight date tokens, then the four camera tokens, then the four
technical tokens, then `{basename}`. The `camera`/`technical` records of
an aggregate are dataclass instances and hence always truthy, so the
code always takes the populated branches for them; the date branch is
taken iff `dates.date_taken` is present. -/
def buildReplacements (g : PhotoGroup) (md : PhotoMetadataWithSource) :
    List (String × String) :=
  let dateParts :=
    match md.dates.date_taken with
    | some dt =>
      [("{date}", fmtDate dt),
       ("{datetime}", fmtDateTimeStr dt),
       ("{year}", padNat 4 dt.year),
       ("{month}", padNat 2 dt.month),
       ("{day}", padNat 2 dt.day),
       ("{hour}", padNat 2 dt.hour),
       ("{minute}", padNat 2 dt.minute),
       ("{second}", padNat 2 dt.second)]
    | none =>
      [("{date}", g.basename),
       ("{datetime}", g.basename),
       ("{year}", yearFallback g.basename),
       ("{month}", "XX"),
       ("{day}", "XX"),
       ("{hour}", "XX"),
       ("{minute}", "XX"),
       ("{second}", "XX")]
  let cameraParts :=
    [("{camera_make}", safe_filename (if truthyStr md.camera.make then
        md.camera.make.getD "" else "UnknownMake")),
     ("{camera_model}", safe_filename (if truthyStr md.camera.model then
        md.camera.model.getD "" else "UnknownModel")),
     ("{lens_model}", safe_filename (if truthyStr md.camera.lens_model then
        md.camera.lens_model.getD "" else "UnknownLens")),
     ("{serial_number}", safe_filename (match md.camera.serial_number with
        | some s => s
        | none => "NoSerial"))]
  let technicalParts :=
    [("{iso}", if truthyInt md.technical.iso then
        toString (md.technical.iso.getD 0) else "UnknownISO"),
     ("{aperture}", if truthyInt md.technical.aperture then
        "f" ++ toString (md.technical.aperture.getD 0) else "UnknownAperture"),
     ("{focal_length}", if truthyInt md.technical.focal_length then
        toString (md.technical.focal_length.getD 0) ++ "mm" else "UnknownFocal"),
     ("{shutter_speed}", if truthyStr md.technical.shutter_speed then
        md.technical.shutter_speed.getD "" else "UnknownShutter")]
  dateParts ++ cameraParts ++ technicalParts ++ [("{basename}", g.basename)]

/-- The scheme after all replacements have been applied in dictionary
order (`new_name.replace(placeholder, value)` for each entry). -/
def applyReplacements (scheme : String) (g : PhotoGroup)
    (md : PhotoMetadataWithSource) : String :=
  (buildReplacements g md).foldl (fun s pv => strReplace s pv.1 pv.2) scheme

/-- PhotoRenameService._generate_base_filename: apply the replacements,
then sanitize per `/`-separated segment when the result contains a `/`,
else sanitize the whole string. -/
def generate_base_filename (scheme : String) (g : PhotoGroup)
    (md : PhotoMetadataWithSource) : String :=
  let new_name := applyReplacements scheme g md
  if containsCharB new_name '/' then
    String.mk (joinWithChar '/'
      ((splitOnChar '/' new_name.data).map (fun part => (safe_filename (String.mk part)).data)))
  else
    safe_filename new_name

/-! ## Rename operations (PhotoRenameService._generate_rename_operations) -/

/-- One entry of the `rename_operations` list. Paths are modelled as
strings joined with `/` (the only path operations the planner performs
are joins and string formatting). -/
structure RenameOp where
  group : PhotoGroup
  photo : Photo
  base_new_path : String
  base_filename : String
  destination : String

/-- The `base_new_path` computed for one photo: split the base filename
on `/`; with subdirectories the path is destination joined with every
part, otherwise destination joined with the base filename. Both joins
are string concatenation with `/`. -/
def baseNewPath (destination base_filename : String) : String :=
  let parts := splitOnChar '/' base_filename.data
  if parts.length > 1 then
    destination ++ "/" ++ String.mk (joinWithChar '/' parts)
  else
    destination ++ "/" ++ base_filename

/-- PhotoRenameService._generate_rename_operations: for each group the
loop first calls `group.extract_metadata()` with no surrounding try/except
(src/services/rename_service.py line 189), so the `TypeError` of a
cache-miss extraction propagates and aborts the whole pass; for a group
whose extraction returns, one operation per photo is emitted with the base
filename rendered once per group. -/
def generate_rename_operations (groups : List PhotoGroup) (destination : String)
    (scheme : String) : Except String (List RenameOp) :=
  match groups with
  | [] => Except.ok []
  | g :: rest =>
    match g.extract_metadata with
    | Except.error e => Except.error e
    | Except.ok md =>
      let base := generate_base_filename scheme g md
      match generate_rename_operations rest destination scheme with
      | Except.error e => Except.error e
      | Except.ok ops =>
        Except.ok (g.get_photos.map (fun p =>
          { group := g
            photo := p
            base_new_path := baseNewPath destination base
            base_filename := base
            destination := destination }) ++ ops)

/-! ## Chronological group ordering
(PhotoRenameService._sort_groups_by_date_taken) -/

/-- The inner loop of `_sort_groups_by_date_taken` for one bucket entry:
`group.extract_metadata()` is called for every operation with no exception
handling, so the `TypeError` of a cache-miss extraction propagates out of
the sort; otherwise the earliest `dates.date_taken` over the operations of
the entry is accumulated (all operations of one entry share one group). -/
def earliestDateLoop : Option DateTime → List RenameOp →
    Except String (Option DateTime)
  | acc, [] => Except.ok acc
  | acc, op :: rest =>
    match op.group.extract_metadata with
    | Except.error e => Except.error e
    | Except.ok md =>
      match md.dates.date_taken with
      | none => earliestDateLoop acc rest
      | some d =>
        match acc with
        | none => earliestDateLoop (some d) rest
        | some e => earliestDateLoop (if d.ltb e then some d else some e) rest

/-- The Python sort key `(date is None, date if date else datetime.min)`
flattened to a Nat vector compared lexicographically: the leading
component is 0 for dated and 1 for undated groups (False < True), the
rest are the datetime components. -/
def sortKeyVec (d : Option DateTime) : List Nat :=
  match d with
  | some dt => 0 :: dt.vec
  | none => 1 :: dtMin.vec

/-- Key of a group name relative to the per-bucket date table. A name
missing from the table cannot occur (the table is built from exactly the
names being sorted); it is given the undated key. -/
def keyOf (gd : List (String × Option DateTime)) (n : String) : List Nat :=
  sortKeyVec ((List.lookup n gd).getD none)

/-- Stable insertion of `x` into a sorted list: `x` is placed before the
first element `y` with `le x y`, so equal-key elements keep their
original relative order. -/
def insertSorted (le : α → α → Bool) (x : α) : List α → List α
  | [] => [x]
  | y :: ys => if le x y then x :: y :: ys else y :: insertSorted le x ys

/-- Stable sort by a boolean total preorder; models Python `sorted`. -/
def stableSortBy (le : α → α → Bool) (l : List α) : List α :=
  l.foldr (insertSorted le) []

/-- The outer loop of `_sort_groups_by_date_taken`: the per-entry earliest
dates, in bucket order, with the first raised `TypeError` propagating. -/
def groupDatesLoop : List (String × Option DateTime) →
    List (String × List RenameOp) → Except String (List (String × Option DateTime))
  | acc, [] => Except.ok acc
  | acc, (n, ops) :: rest =>
    match earliestDateLoop none ops with
    | Except.error e => Except.error e
    | Except.ok d => groupDatesLoop (acc ++ [(n, d)]) rest

/-- PhotoRenameService._sort_groups_by_date_taken: compute the earliest
date per bucket entry - raising on any cache-miss extraction - then stably
sort the names by `(date is None, date or datetime.min)`. -/
def sort_groups_by_date_taken (gops : List (String × List RenameOp)) :
    Except String (List String) :=
  match groupDatesLoop [] gops with
  | Except.error e => Except.error e
  | Except.ok gd =>
    Except.ok (stableSortBy (fun a b => natLexLe (keyOf gd a) (keyOf gd b))
      (gops.map Prod.fst))

/-! ## Sequence application (PhotoRenameService._apply_explicit_sequences
and _apply_collision_sequences) -/

/-- Append `op` to the bucket of key `k`, creating the bucket at the end
when absent (defaultdict over an insertion-ordered dict). -/
def addToBucket (k : String) (op : RenameOp) :
    List (String × List RenameOp) → List (String × List RenameOp)
  | [] => [(k, [op])]
  | (k', ops) :: rest =>
    if k' == k then (k', ops ++ [op]) :: rest else (k', ops) :: addToBucket k op rest

/-- Group a list of operations by the basename of their group, in insertion
order. -/
def groupByBasename (ops : List RenameOp) : List (String × List RenameOp) :=
  ops.foldl (fun acc op => addToBucket op.group.basename op acc) []

/-- First-occurrence deduplication of a key list; its length is the size
of the corresponding Python set. -/
def dedupKeys (l : List String) : List String :=
  l.foldl (fun acc k => if acc.contains k then acc else acc ++ [k]) []

/-- The 1-based position of `n` in `names` (0 when absent, which cannot
occur for the lists built here); models `enumerate(sorted_names, 1)`. -/
def seqNumberFrom (n : String) : List String → Nat → Nat
  | [], _ => 0
  | m :: rest, i => if m == n then i else seqNumberFrom n rest (i + 1)

def seqNumber (names : List String) (n : String) : Nat :=
  seqNumberFrom n names 1

/-- The final path `_apply_explicit_sequences` assigns to one operation:
within the pattern bucket of the operation (operations sharing its
`base_filename`), group by source-group basename, sort those groups
chronologically, substitute the 1-based position of the group into
`{sequence}`, and append the own extension of the photo (after the
subdirectory split). -/
def explicitNewPath (ops : List RenameOp) (sequence_digits : Nat) (op : RenameOp) :
    Except String String :=
  let bucket := groupByBasename (ops.filter (fun o => o.base_filename == op.base_filename))
  match sort_groups_by_date_taken bucket with
  | Except.error e => Except.error e
  | Except.ok sorted_names =>
    let seq := seqNumber sorted_names op.group.basename
    let sequence_str := padNat sequence_digits seq
    let final_filename := strReplace op.base_filename "{sequence}" sequence_str
    let parts := splitOnChar '/' final_filename.data
    if parts.length > 1 then
      Except.ok (op.destination ++ "/" ++ String.mk (joinWithChar '/' parts) ++
        op.photo.extension)
    else
      Except.ok (op.destination ++ "/" ++ final_filename ++ op.photo.extension)

/-- The final path `_apply_collision_sequences` assigns to one
operation: when at least two distinct source groups share the
`base_new_path` of the operation, group them, sort chronologically and append
`_NNN` before the extension; otherwise append the extension directly. -/
def collisionNewPath (ops : List RenameOp) (sequence_digits : Nat) (op : RenameOp) :
    Except String String :=
  let sameBase := ops.filter (fun o => o.base_new_path == op.base_new_path)
  let distinctGroups := dedupKeys (sameBase.map (fun o => o.group.basename))
  if distinctGroups.length > 1 then
    match sort_groups_by_date_taken (groupByBasename sameBase) with
    | Except.error e => Except.error e
    | Except.ok sorted_names =>
      Except.ok (op.base_new_path ++ "_" ++
        padNat sequence_digits (seqNumber sorted_names op.group.basename) ++
        op.photo.extension)
  else
    Except.ok (op.base_new_path ++ op.photo.extension)

/-- Error-propagating map over a list: the first raised exception aborts
the loop, as an unhandled exception inside a Python for-loop does. -/
def mapE {α β : Type} (f : α → Except String β) : List α → Except String (List β)
  | [] => Except.ok []
  | x :: rest =>
    match f x with
    | Except.error e => Except.error e
    | Except.ok y =>
      match mapE f rest with
      | Except.error e => Except.error e
      | Except.ok ys => Except.ok (y :: ys)

/-- PhotoRenameService._apply_sequences_to_operations: pick explicit mode
when the base filename of any operation still contains `{sequence}`, else
collision mode; return the list of final destination paths, one per
operation, in operation order, propagating any exception raised by the
chronological sort inside either mode. -/
def apply_sequences_to_operations (ops : List RenameOp) (sequence_digits : Nat) :
    Except String (List String) :=
  if ops.any (fun op => containsSubstrB op.base_filename "{sequence}") then
    mapE (explicitNewPath ops sequence_digits) ops
  else
    mapE (collisionNewPath ops sequence_digits) ops

/-! ## Group classification and the planning pass
(PhotoRenameService._classify_groups and rename_photos) -/

/-- PhotoRenameService._classify_groups, for one group (`true` means
valid): a group with no photos, or failing `is_valid`, is problematic;
otherwise `group.extract_metadata()` is called inside try/except, so the
`TypeError` of a cache-miss extraction marks the group problematic instead
of propagating; an extraction that returns marks the group valid (the
returned dataclass instance is truthy, so the `if not group_metadata`
guard never fires). The missing-file check
(`photo.absolute_path.exists()`) reads the filesystem and is modelled as
passing: the files of the planned library are present. -/
def classifyGroup (g : PhotoGroup) : Bool :=
  if g.get_photos.isEmpty then false
  else if !g.is_valid then false
  else
    match g.extract_metadata with
    | Except.error _ => false
    | Except.ok _ => true

/-- The eight date placeholders checked by
`PhotoRenameService._group_has_required_metadata`. -/
def DATE_PLACEHOLDERS : List String :=
  ["{date}", "{datetime}", "{year}", "{month}", "{day}", "{hour}",
   "{minute}", "{second}"]

/-- PhotoRenameService._group_has_required_metadata: when the scheme
contains a date placeholder, `extract_metadata` is consulted (inside a
try/except that turns the raised `TypeError` into `False`) and the group
qualifies only with a truthy `dates.date_taken`; a scheme without date
placeholders qualifies every group. -/
def group_has_required_metadata (g : PhotoGroup) (scheme : String) : Bool :=
  if DATE_PLACEHOLDERS.any (fun p => containsSubstrB scheme p) then
    match g.extract_metadata with
    | Except.error _ => false
    | Except.ok md => truthyDate md.dates.date_taken
  else true

/-- The planning half of PhotoRenameService.rename_photos (the scheme is
assumed to pass `_validate_naming_scheme`, which raises on unknown
placeholders before any group is touched; loading, directory creation and
the execution of the planned operations are filesystem work outside the
planning scope). The groups are classified in order into valid and
problematic; with skip_invalid the problematic groups are quarantined to
error folders (a file move, also out of planning scope) and the valid
groups are further filtered by `_group_has_required_metadata`; without
skip_invalid all groups are processed, valid ones first. Then the rename
operations are generated - where a cache-miss `extract_metadata` raises
out of the whole pass - and sequence numbers are applied; the result is
the list of final destination paths (`new_path`) in operation order. -/
def rename_photos_plan (skip_invalid : Bool) (groups : List PhotoGroup)
    (destination scheme : String) (sequence_digits : Nat) :
    Except String (List String) :=
  let valid_groups := groups.filter classifyGroup
  let problematic_groups := groups.filter (fun g => !classifyGroup g)
  let groups_to_process :=
    if skip_invalid then
      valid_groups.filter (fun g => group_has_required_metadata g scheme)
    else valid_groups ++ problematic_groups
  match generate_rename_operations groups_to_process destination scheme with
  | Except.error e => Except.error e
  | Except.ok ops => apply_sequences_to_operations ops sequence_digits

/-! ## Specification-side helpers for the aggregation claims -/

/-- The value of one leaf field when it is truthy, `none` when it is
Python-falsy (and hence skipped by the aggregation loops). -/
def pickField {α : Type} (fieldOf : PhotoMetadata → Option α) (truthy : Option α → Bool)
    (m : PhotoMetadata) : Option α :=
  if truthy (fieldOf m) then fieldOf m else none

/-- The first source (in query order) whose record has a truthy value
for the field selected by `pick`, together with its filename. -/
def firstPick {α : Type} (pick : PhotoMetadata → Option α) :
    List MetaSource → Option (α × String)
  | [] => none
  | s :: rest =>
    match pick s.meta with
    | some v => some (v, s.filename)
    | none => firstPick pick rest

/-- The aggregated value the first-truthy-wins merge should produce for
one field. -/
def firstField {α : Type} (pick : PhotoMetadata → Option α) (l : List MetaSource) :
    Option α :=
  (firstPick pick l).map Prod.fst

/-- The source attribution the first-truthy-wins merge should produce
for one field. -/
def firstSource {α : Type} (pick : PhotoMetadata → Option α) (l : List MetaSource) :
    Option String :=
  (firstPick pick l).map Prod.snd

def pickMake : PhotoMetadata → Option String :=
  pickField (fun m => m.camera.make) truthyStr

def pickModel : PhotoMetadata → Option String :=
  pickField (fun m => m.camera.model) truthyStr

def pickLensModel : PhotoMetadata → Option String :=
  pickField (fun m => m.camera.lens_model) truthyStr

def pickSerialNumber : PhotoMetadata → Option String :=
  pickField (fun m => m.camera.serial_number) truthyStr

def pickDateTaken : PhotoMetadata → Option DateTime :=
  pickField (fun m => m.dates.date_taken) truthyDate

def pickDateModified : PhotoMetadata → Option DateTime :=
  pickField (fun m => m.dates.date_modified) truthyDate

def pickDateDigitized : PhotoMetadata → Option DateTime :=
  pickField (fun m => m.dates.date_digitized) truthyDate

def pickIso : PhotoMetadata → Option Int :=
  pickField (fun m => m.technical.iso) truthyInt

def pickAperture : PhotoMetadata → Option Int :=
  pickField (fun m => m.technical.aperture) truthyInt

def pickShutterSpeed : PhotoMetadata → Option String :=
  pickField (fun m => m.technical.shutter_speed) truthyStr

def pickFocalLength : PhotoMetadata → Option Int :=
  pickField (fun m => m.technical.focal_length) truthyInt

def pickFocalLength35 : PhotoMetadata → Option Int :=
  pickField (fun m => m.technical.focal_length_35mm) truthyInt

/-- The flash field is the exception: the loop tests `is not None`, so a
present `False` counts as a hit. -/
def pickFlash : PhotoMetadata → Option Bool :=
  pickField (fun m => m.technical.flash_fired) (fun o => o.isSome)

/-! ## Specification-side helpers for the sanitizer and path claims -/

/-- Number of `/` characters of a string; the number of path segments is
this plus one. -/
def countSlash (s : String) : Nat :=
  s.data.count '/'

/-- No two adjacent underscores anywhere in the list. -/
def noDoubleUnderscore : List Char → Bool
  | [] => true
  | [_] => true
  | a :: b :: rest => !(a == '_' && b == '_') && noDoubleUnderscore (b :: rest)

/-- Neither end of the list is an underscore or a space. -/
def edgeClean (l : List Char) : Bool :=
  (match l.head? with
   | some c => !trimChar c
   | none => true) &&
  (match l.getLast? with
   | some c => !trimChar c
   | none => true)

/-- Boolean test for `Except.ok`. -/
def exceptOk {ε α : Type} : Except ε α → Bool
  | .ok _ => true
  | .error _ => false

/-! ## Concrete instances used by the claims -/

/-- A metadata record carrying only a capture date. -/
def metaWithDate (dt : DateTime) : PhotoMetadata :=
  { dates := { date_taken := some dt } }

def vacationJpg : Photo := ⟨"vacation", ".jpg", metaWithDate ⟨2024, 1, 1, 0, 0, 0⟩⟩

def vacationXmp : Photo := ⟨"vacation", ".xmp", {}⟩

def beachJpg : Photo := ⟨"beach", ".jpg", metaWithDate ⟨2024, 2, 1, 0, 0, 0⟩⟩

def beachXmp : Photo := ⟨"beach", ".xmp", {}⟩

/-- Scenario A group `vacation{.jpg,.xmp}` with date 2024-01-01. -/
def vacationGroup : PhotoGroup :=
  ⟨"vacation", [(".jpg", vacationJpg), (".xmp", vacationXmp)], none⟩

/-- Scenario A group `beach{.jpg,.xmp}` with date 2024-02-01. -/
def beachGroup : PhotoGroup :=
  ⟨"beach", [(".jpg", beachJpg), (".xmp", beachXmp)], none⟩

/-- A group whose basename sanitizes to `a_b`. -/
def colonGroup : PhotoGroup := ⟨"a:b", [(".jpg", ⟨"a:b", ".jpg", {}⟩)], none⟩

/-- A group whose basename is already `a_b`, colliding with the
sanitized `a:b`. -/
def underscoreGroup : PhotoGroup := ⟨"a_b", [(".jpg", ⟨"a_b", ".jpg", {}⟩)], none⟩

/-- A non-colliding group whose basename equals the suffixed name the
collision handler will give `a:b`. -/
def suffixGroup : PhotoGroup := ⟨"a_b_001", [(".jpg", ⟨"a_b_001", ".jpg", {}⟩)], none⟩

/-- Undated singleton group named `b`, inserted before `a`. -/
def groupNamedB : PhotoGroup := ⟨"b", [(".jpg", ⟨"b", ".jpg", {}⟩)], none⟩

/-- Undated singleton group named `a`, inserted after `b`. -/
def groupNamedA : PhotoGroup := ⟨"a", [(".jpg", ⟨"a", ".jpg", {}⟩)], none⟩

def opForB : RenameOp := ⟨groupNamedB, ⟨"b", ".jpg", {}⟩, "out/x", "x", "out"⟩

def opForA : RenameOp := ⟨groupNamedA, ⟨"a", ".jpg", {}⟩, "out/x", "x", "out"⟩

/-- A collision bucket with two undated groups whose basenames are in
descending order but whose insertion order is `b` then `a`. -/
def tieBucket : List (String × List RenameOp) := [("b", [opForB]), ("a", [opForA])]

def photoJpgMakeA : Photo := ⟨"img", ".jpg", { camera := { make := some "MakeA" } }⟩

def photoPngMakeB : Photo := ⟨"img", ".png", { camera := { make := some "MakeB" } }⟩

/-- The same two non-sidecar photos inserted `.jpg` first. -/
def groupOrderJP : PhotoGroup :=
  ⟨"img", [(".jpg", photoJpgMakeA), (".png", photoPngMakeB)], none⟩

/-- The same two non-sidecar photos inserted `.png` first. -/
def groupOrderPJ : PhotoGroup :=
  ⟨"img", [(".png", photoPngMakeB), (".jpg", photoJpgMakeA)], none⟩

/-- Scenario C: `shot.jpg` has no camera make (but a non-empty record);
`shot.xmp` has make Canon. -/
def shotJpg : Photo := ⟨"shot", ".jpg", metaWithDate ⟨2024, 3, 1, 0, 0, 0⟩⟩

def shotXmp : Photo := ⟨"shot", ".xmp", { camera := { make := some "Canon" } }⟩

def shotGroup : PhotoGroup := ⟨"shot", [(".jpg", shotJpg), (".xmp", shotXmp)], none⟩

/-- The empty group. -/
def emptyGroup : PhotoGroup := ⟨"empty", [], none⟩

/-- Scenario D group `note{.xmp}`. -/
def noteXmpGroup : PhotoGroup := ⟨"note", [(".xmp", ⟨"note", ".xmp", {}⟩)], none⟩

/-- An aggregate whose camera make contains a path separator. -/
def slashMeta : PhotoMetadataWithSource := { camera := { make := some "A/B" } }

/-- A group with no photos, used only to feed `generate_base_filename`
directly. -/
def plainGroup : PhotoGroup := ⟨"x", [], none⟩

/-- A photo with the group basename, used to exercise the overwriting
insert of `add_photo`. -/
def addedJpg : Photo := ⟨"shot", ".jpg", {}⟩

/-- The group `add_photo` produces when `addedJpg` overwrites the prior
`.jpg` entry of `shotGroup`. -/
def shotGroupAdded : PhotoGroup :=
  ⟨"shot", [(".jpg", addedJpg), (".xmp", shotXmp)], none⟩

/-- A photo whose basename does not match `shotGroup`. -/
def strangerPhoto : Photo := ⟨"other", ".jpg", {}⟩

def srcIsoZero : MetaSource := ⟨{ technical := { iso := some 0 } }, "a.jpg", false⟩

def srcIso100 : MetaSource := ⟨{ technical := { iso := some 100 } }, "b.jpg", false⟩

def srcFlashFalse : MetaSource :=
  ⟨{ technical := { flash_fired := some false } }, "c.jpg", false⟩

def srcFlashTrue : MetaSource :=
  ⟨{ technical := { flash_fired := some true } }, "d.jpg", false⟩

def srcMakeEmptyStr : MetaSource := ⟨{ camera := { make := some "" } }, "e.jpg", false⟩

def srcMakeNikon : MetaSource := ⟨{ camera := { make := some "Nikon" } }, "f.jpg", false⟩

/-! ## Helper lemmas: first-truthy-wins characterization of the
aggregation folds -/

/-- A fold whose step writes one (value, source) field pair exactly when
the field is still falsy and the incoming record has a truthy value
computes, for that field, the first truthy value of the list together
with its filename, and never overwrites the field once it is truthy. -/
theorem foldl_step_field {C α : Type}
    (step : C → MetaSource → C) (fieldOf : PhotoMetadata → Option α)
    (truthy : Option α → Bool) (getV : C → Option α) (getS : C → Option String)
    (hstep : ∀ c s,
      getV (step c s) =
        (if !truthy (getV c) && truthy (fieldOf s.meta) then fieldOf s.meta else getV c) ∧
      getS (step c s) =
        (if !truthy (getV c) && truthy (fieldOf s.meta) then some s.filename else getS c))
    (hnone : truthy none = false) :
    ∀ (l : List MetaSource) (c : C),
      (truthy (getV c) = true →
        getV (l.foldl step c) = getV c ∧ getS (l.foldl step c) = getS c) ∧
      (truthy (getV c) = false →
        getV (l.foldl step c) =
          (match firstPick (pickField fieldOf truthy) l with
           | some vf => some vf.1
           | none => getV c) ∧
        getS (l.foldl step c) =
          (match firstPick (pickField fieldOf truthy) l with
           | some vf => some vf.2
           | none => getS c)) := by
  intro l
  induction l with
  | nil => exact fun c => ⟨fun _ => ⟨rfl, rfl⟩, fun _ => ⟨rfl, rfl⟩⟩
  | cons s rest ih =>
    intro c
    obtain ⟨hv, hs⟩ := hstep c s
    constructor
    · intro ht
      rw [ht] at hv hs
      simp only [Bool.not_true, Bool.false_and, if_neg] at hv hs
      · have hrec := (ih (step c s)).1 (by rw [hv]; exact ht)
        rw [List.foldl_cons]
        exact ⟨hrec.1.trans hv, hrec.2.trans hs⟩
    · intro ht
      rw [ht] at hv hs
      simp only [Bool.not_false, Bool.true_and] at hv hs
      rcases hf : truthy (fieldOf s.meta) with _ | _
      · rw [hf, if_neg (by simp)] at hv hs
        have hrec := (ih (step c s)).2 (by rw [hv]; exact ht)
        rw [List.foldl_cons]
        have hpk : pickField fieldOf truthy s.meta = none := by
          unfold pickField
          rw [hf]
          simp
        constructor
        · rw [hrec.1, hv]
          simp only [firstPick, hpk]
        · rw [hrec.2, hs]
          simp only [firstPick, hpk]
      · rw [hf, if_pos rfl] at hv hs
        obtain ⟨v, hfo⟩ : ∃ v, fieldOf s.meta = some v := by
          rcases hfo : fieldOf s.meta with _ | v
          · rw [hfo] at hf
            rw [hnone] at hf
            cases hf
          · exact ⟨v, rfl⟩
        have hrec := (ih (step c s)).1 (by rw [hv]; exact hf)
        have hpk : pickField fieldOf truthy s.meta = some v := by
          unfold pickField
          rw [hf, hfo]
          simp
        rw [List.foldl_cons]
        constructor
        · rw [hrec.1, hv, hfo]
          simp only [firstPick, hpk]
        · rw [hrec.2, hs]
          simp only [firstPick, hpk]

/-- Every source built from the non-sidecar photos carries the
`photo` tag. -/
theorem photo_sources_tag (g : PhotoGroup) :
    ∀ s ∈ g.photo_files.filterMap (fun p =>
      if !p.meta.is_empty then some (⟨p.meta, p.filename, false⟩ : MetaSource) else none),
      s.isSidecar = false := by
  intro s hs
  rw [List.mem_filterMap] at hs
  obtain ⟨p, _, hp⟩ := hs
  split at hp
  · cases hp
    rfl
  · cases hp

/-- Every source built from the sidecar photos carries the `sidecar`
tag. -/
theorem sidecar_sources_tag (g : PhotoGroup) :
    ∀ s ∈ g.sidecar_files.filterMap (fun p =>
      if (strLower p.extension == ".xmp" || strLower p.extension == ".xml")
          && !p.meta.is_empty then
        some (⟨p.meta, p.filename, true⟩ : MetaSource) else none),
      s.isSidecar = true := by
  intro s hs
  rw [List.mem_filterMap] at hs
  obtain ⟨p, _, hp⟩ := hs
  split at hp
  · cases hp
    rfl
  · cases hp

/-- The priority sort inside each aggregation pass is the identity on
the query list built by `extract_metadata`, because that list already
places every non-sidecar record before every sidecar record. -/
theorem sortSources_metadata_sources (g : PhotoGroup) :
    sortSourcesByPriority g.metadata_sources = g.metadata_sources := by
  have hA := photo_sources_tag g
  have hB := sidecar_sources_tag g
  unfold sortSourcesByPriority
  conv_lhs => rw [PhotoGroup.metadata_sources]
  conv_rhs => rw [PhotoGroup.metadata_sources]
  rw [List.filter_append, List.filter_append]
  rw [List.filter_eq_self.mpr (fun s hs => by simp [hA s hs]),
    List.filter_eq_nil_iff.mpr (fun s hs => by simp [hB s hs]),
    List.filter_eq_nil_iff.mpr (fun s hs => by simp [hA s hs]),
    List.filter_eq_self.mpr (fun s hs => by simp [hB s hs])]
  simp

/-- Field characterization: camera make. -/
theorem agg_make_char (l : List MetaSource) :
    (aggregate_camera_info_with_source l).make = firstField pickMake (sortSourcesByPriority l) ∧
    (aggregate_camera_info_with_source l).make_source =
      firstSource pickMake (sortSourcesByPriority l) := by
  have h := (foldl_step_field camStep (fun m => m.camera.make) truthyStr
      (fun c => c.make) (fun c => c.make_source) (fun c s => ⟨rfl, rfl⟩) rfl
      (sortSourcesByPriority l) {}).2 rfl
  unfold aggregate_camera_info_with_source firstField firstSource pickMake
  rcases hfp : firstPick (pickField (fun m => m.camera.make) truthyStr)
      (sortSourcesByPriority l) with _ | vf <;> rw [hfp] at h <;> simp_all

/-- Field characterization: camera model. -/
theorem agg_model_char (l : List MetaSource) :
    (aggregate_camera_info_with_source l).model = firstField pickModel (sortSourcesByPriority l) ∧
    (aggregate_camera_info_with_source l).model_source =
      firstSource pickModel (sortSourcesByPriority l) := by
  have h := (foldl_step_field camStep (fun m => m.camera.model) truthyStr
      (fun c => c.model) (fun c => c.model_source) (fun c s => ⟨rfl, rfl⟩) rfl
      (sortSourcesByPriority l) {}).2 rfl
  unfold aggregate_camera_info_with_source firstField firstSource pickModel
  rcases hfp : firstPick (pickField (fun m => m.camera.model) truthyStr)
      (sortSourcesByPriority l) with _ | vf <;> rw [hfp] at h <;> simp_all

/-- Field characterization: lens model. -/
theorem agg_lens_char (l : List MetaSource) :
    (aggregate_camera_info_with_source l).lens_model =
      firstField pickLensModel (sortSourcesByPriority l) ∧
    (aggregate_camera_info_with_source l).lens_model_source =
      firstSource pickLensModel (sortSourcesByPriority l) := by
  have h := (foldl_step_field camStep (fun m => m.camera.lens_model) truthyStr
      (fun c => c.lens_model) (fun c => c.lens_model_source) (fun c s => ⟨rfl, rfl⟩) rfl
      (sortSourcesByPriority l) {}).2 rfl
  unfold aggregate_camera_info_with_source firstField firstSource pickLensModel
  rcases hfp : firstPick (pickField (fun m => m.camera.lens_model) truthyStr)
      (sortSourcesByPriority l) with _ | vf <;> rw [hfp] at h <;> simp_all

/-- Field characterization: serial number. -/
theorem agg_serial_char (l : List MetaSource) :
    (aggregate_camera_info_with_source l).serial_number =
      firstField pickSerialNumber (sortSourcesByPriority l) ∧
    (aggregate_camera_info_with_source l).serial_number_source =
      firstSource pickSerialNumber (sortSourcesByPriority l) := by
  have h := (foldl_step_field camStep (fun m => m.camera.serial_number) truthyStr
      (fun c => c.serial_number) (fun c => c.serial_number_source) (fun c s => ⟨rfl, rfl⟩) rfl
      (sortSourcesByPriority l) {}).2 rfl
  unfold aggregate_camera_info_with_source firstField firstSource pickSerialNumber
  rcases hfp : firstPick (pickField (fun m => m.camera.serial_number) truthyStr)
      (sortSourcesByPriority l) with _ | vf <;> rw [hfp] at h <;> simp_all

/-- Field characterization: date taken. -/
theorem agg_date_taken_char (l : List MetaSource) :
    (aggregate_date_info_with_source l).date_taken =
      firstField pickDateTaken (sortSourcesByPriority l) ∧
    (aggregate_date_info_with_source l).date_taken_source =
      firstSource pickDateTaken (sortSourcesByPriority l) := by
  have h := (foldl_step_field dateStep (fun m => m.dates.date_taken) truthyDate
      (fun c => c.date_taken) (fun c => c.date_taken_source) (fun c s => ⟨rfl, rfl⟩) rfl
      (sortSourcesByPriority l) {}).2 rfl
  unfold aggregate_date_info_with_source firstField firstSource pickDateTaken
  rcases hfp : firstPick (pickField (fun m => m.dates.date_taken) truthyDate)
      (sortSourcesByPriority l) with _ | vf <;> rw [hfp] at h <;> simp_all

/-- Field characterization: date modified. -/
theorem agg_date_modified_char (l : List MetaSource) :
    (aggregate_date_info_with_source l).date_modified =
      firstField pickDateModified (sortSourcesByPriority l) ∧
    (aggregate_date_info_with_source l).date_modified_source =
      firstSource pickDateModified (sortSourcesByPriority l) := by
  have h := (foldl_step_field dateStep (fun m => m.dates.date_modified) truthyDate
      (fun c => c.date_modified) (fun c => c.date_modified_source) (fun c s => ⟨rfl, rfl⟩) rfl
      (sortSourcesByPriority l) {}).2 rfl
  unfold aggregate_date_info_with_source firstField firstSource pickDateModified
  rcases hfp : firstPick (pickField (fun m => m.dates.date_modified) truthyDate)
      (sortSourcesByPriority l) with _ | vf <;> rw [hfp] at h <;> simp_all

/-- Field characterization: date digitized. -/
theorem agg_date_digitized_char (l : List MetaSource) :
    (aggregate_date_info_with_source l).date_digitized =
      firstField pickDateDigitized (sortSourcesByPriority l) ∧
    (aggregate_date_info_with_source l).date_digitized_source =
      firstSource pickDateDigitized (sortSourcesByPriority l) := by
  have h := (foldl_step_field dateStep (fun m => m.dates.date_digitized) truthyDate
      (fun c => c.date_digitized) (fun c => c.date_digitized_source) (fun c s => ⟨rfl, rfl⟩) rfl
      (sortSourcesByPriority l) {}).2 rfl
  unfold aggregate_date_info_with_source firstField firstSource pickDateDigitized
  rcases hfp : firstPick (pickField (fun m => m.dates.date_digitized) truthyDate)
      (sortSourcesByPriority l) with _ | vf <;> rw [hfp] at h <;> simp_all

/-- Field characterization: iso. -/
theorem agg_iso_char (l : List MetaSource) :
    (aggregate_technical_info_with_source l).iso =
      firstField pickIso (sortSourcesByPriority l) ∧
    (aggregate_technical_info_with_source l).iso_source =
      firstSource pickIso (sortSourcesByPriority l) := by
  have h := (foldl_step_field techStep (fun m => m.technical.iso) truthyInt
      (fun c => c.iso) (fun c => c.iso_source) (fun c s => ⟨rfl, rfl⟩) rfl
      (sortSourcesByPriority l) {}).2 rfl
  unfold aggregate_technical_info_with_source firstField firstSource pickIso
  rcases hfp : firstPick (pickField (fun m => m.technical.iso) truthyInt)
      (sortSourcesByPriority l) with _ | vf <;> rw [hfp] at h <;> simp_all

/-- Field characterization: aperture. -/
theorem agg_aperture_char (l : List MetaSource) :
    (aggregate_technical_info_with_source l).aperture =
      firstField pickAperture (sortSourcesByPriority l) ∧
    (aggregate_technical_info_with_source l).aperture_source =
      firstSource pickAperture (sortSourcesByPriority l) := by
  have h := (foldl_step_field techStep (fun m => m.technical.aperture) truthyInt
      (fun c => c.aperture) (fun c => c.aperture_source) (fun c s => ⟨rfl, rfl⟩) rfl
      (sortSourcesByPriority l) {}).2 rfl
  unfold aggregate_technical_info_with_source firstField firstSource pickAperture
  rcases hfp : firstPick (pickField (fun m => m.technical.aperture) truthyInt)
      (sortSourcesByPriority l) with _ | vf <;> rw [hfp] at h <;> simp_all

/-- Field characterization: shutter speed. -/
theorem agg_shutter_char (l : List MetaSource) :
    (aggregate_technical_info_with_source l).shutter_speed =
      firstField pickShutterSpeed (sortSourcesByPriority l) ∧
    (aggregate_technical_info_with_source l).shutter_speed_source =
      firstSource pickShutterSpeed (sortSourcesByPriority l) := by
  have h := (foldl_step_field techStep (fun m => m.technical.shutter_speed) truthyStr
      (fun c => c.shutter_speed) (fun c => c.shutter_speed_source) (fun c s => ⟨rfl, rfl⟩) rfl
      (sortSourcesByPriority l) {}).2 rfl
  unfold aggregate_technical_info_with_source firstField firstSource pickShutterSpeed
  rcases hfp : firstPick (pickField (fun m => m.technical.shutter_speed) truthyStr)
      (sortSourcesByPriority l) with _ | vf <;> rw [hfp] at h <;> simp_all

/-- Field characterization: focal length. -/
theorem agg_focal_char (l : List MetaSource) :
    (aggregate_technical_info_with_source l).focal_length =
      firstField pickFocalLength (sortSourcesByPriority l) ∧
    (aggregate_technical_info_with_source l).focal_length_source =
      firstSource pickFocalLength (sortSourcesByPriority l) := by
  have h := (foldl_step_field techStep (fun m => m.technical.focal_length) truthyInt
      (fun c => c.focal_length) (fun c => c.focal_length_source) (fun c s => ⟨rfl, rfl⟩) rfl
      (sortSourcesByPriority l) {}).2 rfl
  unfold aggregate_technical_info_with_source firstField firstSource pickFocalLength
  rcases hfp : firstPick (pickField (fun m => m.technical.focal_length) truthyInt)
      (sortSourcesByPriority l) with _ | vf <;> rw [hfp] at h <;> simp_all

/-- Field characterization: focal length in 35mm equivalent. -/
theorem agg_focal35_char (l : List MetaSource) :
    (aggregate_technical_info_with_source l).focal_length_35mm =
      firstField pickFocalLength35 (sortSourcesByPriority l) ∧
    (aggregate_technical_info_with_source l).focal_length_35mm_source =
      firstSource pickFocalLength35 (sortSourcesByPriority l) := by
  have h := (foldl_step_field techStep (fun m => m.technical.focal_length_35mm) truthyInt
      (fun c => c.focal_length_35mm) (fun c => c.focal_length_35mm_source)
      (fun c s => ⟨rfl, rfl⟩) rfl (sortSourcesByPriority l) {}).2 rfl
  unfold aggregate_technical_info_with_source firstField firstSource pickFocalLength35
  rcases hfp : firstPick (pickField (fun m => m.technical.focal_length_35mm) truthyInt)
      (sortSourcesByPriority l) with _ | vf <;> rw [hfp] at h <;> simp_all

/-- Field characterization: flash fired. Unlike every other field, the
hit test is `is not None`, so a present `False` is taken and kept. -/
theorem agg_flash_char (l : List MetaSource) :
    (aggregate_technical_info_with_source l).flash_fired =
      firstField pickFlash (sortSourcesByPriority l) ∧
    (aggregate_technical_info_with_source l).flash_fired_source =
      firstSource pickFlash (sortSourcesByPriority l) := by
  have hstep : ∀ (c : TechnicalInfoWithSource) (s : MetaSource),
      (techStep c s).flash_fired =
        (if !(c.flash_fired.isSome) && (s.meta.technical.flash_fired).isSome then
          s.meta.technical.flash_fired else c.flash_fired) ∧
      (techStep c s).flash_fired_source =
        (if !(c.flash_fired.isSome) && (s.meta.technical.flash_fired).isSome then
          some s.filename else c.flash_fired_source) := by
    intro c s
    cases hc : c.flash_fired <;> simp [techStep, hc]
  have h := (foldl_step_field techStep (fun m => m.technical.flash_fired)
      (fun o => o.isSome) (fun c => c.flash_fired) (fun c => c.flash_fired_source)
      hstep rfl (sortSourcesByPriority l) {}).2 rfl
  unfold aggregate_technical_info_with_source firstField firstSource pickFlash
  rcases hfp : firstPick (pickField (fun m => m.technical.flash_fired) (fun o => o.isSome))
      (sortSourcesByPriority l) with _ | vf <;> rw [hfp] at h <;> simp_all

/-- C5: the claim asserts that `extract_metadata` returns, for every group
and every leaf field, a first-non-empty aggregate with source attribution,
and in particular on Scenario C (`shot{.jpg,.xmp}`, empty make on the jpg
record, make Canon on the xmp record) an aggregate with make Canon
attributed to shot.xmp. The frozen method never returns on a cache miss:
the constructor call at src/models/photo_group.py line 272 omits the
required `keywords` argument and raises `TypeError` (first conjunct). The
camera aggregation the method runs just before that call does compute make
Canon attributed to shot.xmp for the Scenario C group - the value the
claim, and the tests of the repository, expect the call to return (second
and third conjuncts). -/
theorem claim_C5 :
    shotGroup.extract_metadata = Except.error keywordsTypeError ∧
    (aggregate_camera_info_with_source shotGroup.metadata_sources).make =
      some "Canon" ∧
    (aggregate_camera_info_with_source shotGroup.metadata_sources).make_source =
      some "shot.xmp" := by
  exact ⟨rfl, by decide, by decide⟩

/-- C10: during aggregation a field counts as empty (and so may still
be filled) exactly when its current value is Python-falsy, and a
source value is taken exactly when it is Python-truthy - for every
technical field and for camera make - except `technical.flash_fired`,
whose test is `is None` / `is not None`. The `pick...` functions encode
those truthiness tests (`pickIso` skips a 0, `pickMake` skips an empty
string, `pickFlash` accepts a present `False`). Concretely: a source
iso of 0 is skipped as absent, an aggregated flash of `False` is kept
and attributed and is not overwritten by a later `True`, and an empty
make string is skipped. -/
theorem claim_C10 :
    (∀ l : List MetaSource,
      (aggregate_technical_info_with_source l).iso =
        firstField pickIso (sortSourcesByPriority l) ∧
      (aggregate_technical_info_with_source l).iso_source =
        firstSource pickIso (sortSourcesByPriority l) ∧
      (aggregate_technical_info_with_source l).aperture =
        firstField pickAperture (sortSourcesByPriority l) ∧
      (aggregate_technical_info_with_source l).aperture_source =
        firstSource pickAperture (sortSourcesByPriority l) ∧
      (aggregate_technical_info_with_source l).shutter_speed =
        firstField pickShutterSpeed (sortSourcesByPriority l) ∧
      (aggregate_technical_info_with_source l).shutter_speed_source =
        firstSource pickShutterSpeed (sortSourcesByPriority l) ∧
      (aggregate_technical_info_with_source l).focal_length =
        firstField pickFocalLength (sortSourcesByPriority l) ∧
      (aggregate_technical_info_with_source l).focal_length_source =
        firstSource pickFocalLength (sortSourcesByPriority l) ∧
      (aggregate_technical_info_with_source l).focal_length_35mm =
        firstField pickFocalLength35 (sortSourcesByPriority l) ∧
      (aggregate_technical_info_with_source l).focal_length_35mm_source =
        firstSource pickFocalLength35 (sortSourcesByPriority l) ∧
      (aggregate_technical_info_with_source l).flash_fired =
        firstField pickFlash (sortSourcesByPriority l) ∧
      (aggregate_technical_info_with_source l).flash_fired_source =
        firstSource pickFlash (sortSourcesByPriority l) ∧
      (aggregate_camera_info_with_source l).make =
        firstField pickMake (sortSourcesByPriority l) ∧
      (aggregate_camera_info_with_source l).make_source =
        firstSource pickMake (sortSourcesByPriority l)) ∧
    ((aggregate_technical_info_with_source [srcIsoZero, srcIso100]).iso = some 100 ∧
     (aggregate_technical_info_with_source [srcIsoZero, srcIso100]).iso_source =
       some "b.jpg" ∧
     (aggregate_technical_info_with_source [srcFlashFalse, srcFlashTrue]).flash_fired =
       some false ∧
     (aggregate_technical_info_with_source [srcFlashFalse, srcFlashTrue]).flash_fired_source =
       some "c.jpg" ∧
     (aggregate_camera_info_with_source [srcMakeEmptyStr, srcMakeNikon]).make =
       some "Nikon" ∧
     (aggregate_camera_info_with_source [srcMakeEmptyStr, srcMakeNikon]).make_source =
       some "f.jpg") := by
  refine ⟨fun l => ?_, by decide⟩
  have h1 := agg_iso_char l
  have h2 := agg_aperture_char l
  have h3 := agg_shutter_char l
  have h4 := agg_focal_char l
  have h5 := agg_focal35_char l
  have h6 := agg_flash_char l
  have h7 := agg_make_char l
  exact ⟨h1.1, h1.2, h2.1, h2.2, h3.1, h3.2, h4.1, h4.2, h5.1, h5.2, h6.1, h6.2,
    h7.1, h7.2⟩

/-- C4: the claim asserts a fixed lexicographic-by-extension query order
making the aggregate of `extract_metadata` insensitive to insertion order.
The frozen method never produces an aggregate for any reachable group: on
a cache miss the constructor call at src/models/photo_group.py line 272
raises `TypeError` (first two conjuncts), so the claimed deterministic
aggregate does not exist. Moreover the query list the method builds before
that call reads the photo dictionary in insertion order with no
lexicographic sort: `groupOrderJP` and `groupOrderPJ` hold the same Photo
set inserted in the two orders (third conjunct), yet the camera
aggregation of their query lists yields two different makes (last two
conjuncts), so the claimed order-insensitivity also fails for the
aggregation code that does execute inside the method. -/
theorem claim_C4 :
    groupOrderJP.extract_metadata = Except.error keywordsTypeError ∧
    groupOrderPJ.extract_metadata = Except.error keywordsTypeError ∧
    groupOrderJP.get_photos.Perm groupOrderPJ.get_photos ∧
    (aggregate_camera_info_with_source groupOrderJP.metadata_sources).make =
      some "MakeA" ∧
    (aggregate_camera_info_with_source groupOrderPJ.metadata_sources).make =
      some "MakeB" := by
  refine ⟨rfl, rfl, ?_, by decide, by decide⟩
  show ([photoJpgMakeA, photoPngMakeB] : List Photo).Perm [photoPngMakeB, photoJpgMakeA]
  exact List.Perm.swap _ _ _

/-! ## Helper lemmas: the stable sort modelling Python `sorted` -/

theorem natLexLe_cons (x y : Nat) (xs ys : List Nat) :
    natLexLe (x :: xs) (y :: ys) = if x = y then natLexLe xs ys else decide (x < y) := by
  by_cases h : x = y
  · subst h
    simp [natLexLe]
  · simp [natLexLe, h]

theorem natLexLe_refl (v : List Nat) : natLexLe v v = true := by
  induction v with
  | nil => rfl
  | cons x xs ih => rw [natLexLe_cons, if_pos rfl]; exact ih

theorem natLexLe_total (v w : List Nat) : natLexLe v w = true ∨ natLexLe w v = true := by
  induction v generalizing w with
  | nil => left; rfl
  | cons x xs ih =>
    cases w with
    | nil => right; rfl
    | cons y ys =>
      rw [natLexLe_cons, natLexLe_cons]
      by_cases h : x = y
      · subst h
        rw [if_pos rfl, if_pos rfl]
        exact ih ys
      · rw [if_neg h, if_neg (fun he => h he.symm)]
        rcases Nat.lt_or_ge x y with hlt | hge
        · left; simpa using hlt
        · right
          simp only [decide_eq_true_eq]
          omega

theorem natLexLe_trans (u v w : List Nat) (h1 : natLexLe u v = true)
    (h2 : natLexLe v w = true) : natLexLe u w = true := by
  induction u generalizing v w with
  | nil => rfl
  | cons x xs ih =>
    cases v with
    | nil => simp [natLexLe] at h1
    | cons y ys =>
      cases w with
      | nil => simp [natLexLe] at h2
      | cons z zs =>
        rw [natLexLe_cons] at h1 h2 ⊢
        by_cases hxy : x = y <;> by_cases hyz : y = z
        · subst hxy; subst hyz
          rw [if_pos rfl] at h1 h2 ⊢
          exact ih ys zs h1 h2
        · subst hxy
          rw [if_pos rfl] at h1
          rw [if_neg hyz] at h2 ⊢
          exact h2
        · subst hyz
          rw [if_neg hxy] at h1 ⊢
          exact h1
        · rw [if_neg hxy] at h1
          rw [if_neg hyz] at h2
          simp only [decide_eq_true_eq] at h1 h2
          by_cases hxz : x = z
          · omega
          · rw [if_neg hxz]
            simp only [decide_eq_true_eq]
            omega

theorem perm_insertSorted {α : Type} (le : α → α → Bool) (x : α) (l : List α) :
    (insertSorted le x l).Perm (x :: l) := by
  induction l with
  | nil => exact List.Perm.refl _
  | cons y ys ih =>
    unfold insertSorted
    by_cases h : le x y = true
    · rw [if_pos h]
    · rw [if_neg h]
      exact (ih.cons y).trans (List.Perm.swap x y ys)

theorem perm_stableSortBy {α : Type} (le : α → α → Bool) (l : List α) :
    (stableSortBy le l).Perm l := by
  induction l with
  | nil => exact List.Perm.refl _
  | cons x xs ih =>
    show (insertSorted le x (stableSortBy le xs)).Perm (x :: xs)
    exact (perm_insertSorted le x (stableSortBy le xs)).trans (ih.cons x)

theorem pairwise_insertSorted {α : Type} (le : α → α → Bool)
    (htot : ∀ a b, le a b = true ∨ le b a = true)
    (htrans : ∀ a b c, le a b = true → le b c = true → le a c = true)
    (x : α) (l : List α) (hl : l.Pairwise (fun a b => le a b = true)) :
    (insertSorted le x l).Pairwise (fun a b => le a b = true) := by
  induction l with
  | nil => simp [insertSorted]
  | cons y ys ih =>
    rw [List.pairwise_cons] at hl
    unfold insertSorted
    by_cases h : le x y = true
    · rw [if_pos h]
      rw [List.pairwise_cons]
      refine ⟨?_, List.pairwise_cons.mpr hl⟩
      intro z hz
      rcases List.mem_cons.mp hz with hz | hz
      · subst hz; exact h
      · exact htrans x y z h (hl.1 z hz)
    · rw [if_neg h]
      rw [List.pairwise_cons]
      refine ⟨?_, ih hl.2⟩
      intro z hz
      have hz' := (perm_insertSorted le x ys).mem_iff.mp hz
      rcases List.mem_cons.mp hz' with hz' | hz'
      · rw [hz']
        rcases htot x y with h' | h'
        · exact absurd h' h
        · exact h'
      · exact hl.1 z hz'

theorem pairwise_stableSortBy {α : Type} (le : α → α → Bool)
    (htot : ∀ a b, le a b = true ∨ le b a = true)
    (htrans : ∀ a b c, le a b = true → le b c = true → le a c = true)
    (l : List α) :
    (stableSortBy le l).Pairwise (fun a b => le a b = true) := by
  induction l with
  | nil => exact List.Pairwise.nil
  | cons x xs ih => exact pairwise_insertSorted le htot htrans x (stableSortBy le xs) ih

theorem filter_insertSorted {α : Type} (le : α → α → Bool) (p : α → Bool) (x : α)
    (l : List α) (hp : ∀ y, p x = true → p y = true → le x y = true) :
    (insertSorted le x l).filter p = if p x then x :: l.filter p else l.filter p := by
  induction l with
  | nil =>
    show [x].filter p = _
    cases hx : p x <;> simp [List.filter_cons, hx]
  | cons y ys ih =>
    unfold insertSorted
    by_cases h : le x y = true
    · rw [if_pos h]
      cases hx : p x <;> simp [List.filter_cons, hx]
    · rw [if_neg h]
      cases hx : p x with
      | true =>
        have hpy : p y = false := by
          cases hy : p y with
          | true => exact absurd (hp y hx hy) h
          | false => rfl
        simp [List.filter_cons, hpy, hx, ih]
      | false =>
        simp [List.filter_cons, hx, ih]

theorem filter_stableSortBy {α : Type} (le : α → α → Bool) (p : α → Bool)
    (l : List α) (hp : ∀ a b, p a = true → p b = true → le a b = true) :
    (stableSortBy le l).filter p = l.filter p := by
  induction l with
  | nil => rfl
  | cons x xs ih =>
    show (insertSorted le x (stableSortBy le xs)).filter p = (x :: xs).filter p
    rw [filter_insertSorted le p x (stableSortBy le xs) (fun y => hp x y), ih]
    cases hx : p x <;> simp [List.filter_cons, hx]

/-- C3: the claim asserts a chronological-then-basename ordering of every
collision bucket. The frozen `_sort_groups_by_date_taken` never orders a
nonempty bucket: building the sort-key table calls `extract_metadata()`
for every operation, which raises `TypeError` on a cache miss before any
comparison happens - concretely on the two-entry bucket of `b` and `a`
(first conjunct) and in general for every bucket whose first entry holds
an operation of an uncached group (second conjunct). Where the function
does return - entries with no operations never reach the extraction - the
sort key has no basename component and Python sorted is stable, so equal
keys keep insertion order: the bucket listing `b` before `a` with equal
(absent) dates sorts to b then a, not the claimed basename-ascending a
then b (third conjunct). -/
theorem claim_C3 :
    sort_groups_by_date_taken tieBucket = Except.error keywordsTypeError ∧
    (∀ (n : String) (ops : List RenameOp)
      (rest : List (String × List RenameOp)) (op : RenameOp),
      op.group.metadata_cache = none →
      sort_groups_by_date_taken ((n, op :: ops) :: rest) =
        Except.error keywordsTypeError) ∧
    sort_groups_by_date_taken [("b", []), ("a", [])] = Except.ok ["b", "a"] := by
  refine ⟨rfl, ?_, rfl⟩
  intro n ops rest op h
  simp [sort_groups_by_date_taken, groupDatesLoop, earliestDateLoop,
    PhotoGroup.extract_metadata, h]

/-- C1: the claim asserts that planning Scenario A produces the
destinations vacation_001 and beach_002. The frozen program plans nothing
for these groups: their caches are empty (third and fourth conjuncts show
the extraction raising), so with skip_invalid the classification
quarantines both groups and the pass returns zero operations (first
conjunct), and without skip_invalid the unprotected extraction call at
src/services/rename_service.py line 189 aborts the whole pass with the
`TypeError` (second conjunct); none of the claimed paths is ever
produced. Independently of the crash, the explicit sequencing logic
numbers each pattern bucket from 1, so beach_002 could not arise even
with a working extraction. -/
theorem claim_C1 :
    rename_photos_plan true [vacationGroup, beachGroup] "out"
      "{basename}_{sequence}" 3 = Except.ok [] ∧
    rename_photos_plan false [vacationGroup, beachGroup] "out"
      "{basename}_{sequence}" 3 = Except.error keywordsTypeError ∧
    vacationGroup.extract_metadata = Except.error keywordsTypeError ∧
    beachGroup.extract_metadata = Except.error keywordsTypeError := by
  exact ⟨rfl, rfl, rfl, rfl⟩

/-- C2: the claim asserts that every planning pass ends with a
duplicate-free multiset of final destination paths. The frozen program
never establishes that post-condition over any actual operation: every
reachable group carries an empty metadata cache (the only statement
populating the cache is the constructor call that raises), and for such
groups a pass without skip_invalid over a nonempty collection aborts with
the `TypeError` before sequence assignment (first conjunct, on the groups
a:b, a_b and a_b_001), while a skip_invalid pass quarantines every group
and returns the empty operation list (second conjunct concretely, third
conjunct for every collection of uncached groups) - so the claimed
property holds only vacuously on an empty plan, and no code verifying the
post-condition exists in the planner. -/
theorem claim_C2 :
    rename_photos_plan false [colonGroup, underscoreGroup, suffixGroup] "out"
      "{basename}" 3 = Except.error keywordsTypeError ∧
    rename_photos_plan true [colonGroup, underscoreGroup, suffixGroup] "out"
      "{basename}" 3 = Except.ok [] ∧
    (∀ (groups : List PhotoGroup) (dest scheme : String) (digits : Nat),
      (∀ g ∈ groups, g.metadata_cache = none) →
      rename_photos_plan true groups dest scheme digits = Except.ok []) := by
  refine ⟨rfl, rfl, ?_⟩
  intro groups dest scheme digits h
  have hfil : groups.filter classifyGroup = [] := by
    rw [List.filter_eq_nil_iff]
    intro g hg
    simp [classifyGroup, PhotoGroup.extract_metadata, h g hg]
  simp [rename_photos_plan, hfil, generate_rename_operations,
    apply_sequences_to_operations, mapE]

/-- Boolean `any` distributes over a four-way disjunction of
predicates. -/
theorem any_or4 {α : Type} (l : List α) (f1 f2 f3 f4 : α → Bool) :
    (l.any f1 || l.any f2 || l.any f3 || l.any f4) =
      l.any (fun x => f1 x || f2 x || f3 x || f4 x) := by
  induction l with
  | nil => rfl
  | cons x xs ih =>
    simp only [List.any_cons, ← ih]
    cases f1 x <;> cases f2 x <;> cases f3 x <;> cases f4 x <;> simp

/-- For a nonempty group whose photos all have a supported format
class, validity and only-supplementary are complementary; for an empty
group both are false. -/
theorem valid_or_supp (g : PhotoGroup)
    (hall : g.get_photos.all (fun p => (p.format_classification).isSome) = true) :
    (g.is_valid || g.has_only_supplementary_files) = !g.get_photos.isEmpty := by
  cases hv : g.is_valid with
  | true =>
    have hne : g.get_photos ≠ [] := by
      unfold PhotoGroup.is_valid PhotoGroup.has_format_type at hv
      simp only [Bool.or_eq_true] at hv
      rcases hv with ((h | h) | h) | h <;>
        (obtain ⟨p, hp, _⟩ := List.any_eq_true.mp h; exact List.ne_nil_of_mem hp)
    rcases hl : g.get_photos with _ | ⟨p, rest⟩
    · exact absurd hl hne
    · simp [hl]
  | false =>
    rcases hl : g.get_photos with _ | ⟨p, rest⟩
    · unfold PhotoGroup.has_only_supplementary_files PhotoGroup.has_format_type
      rw [hl, hv]
      simp
    · have hp : p ∈ g.get_photos := by rw [hl]; exact List.mem_cons_self p rest
      rw [List.all_eq_true] at hall
      have hps := hall p hp
      rcases hfc : p.format_classification with _ | fc
      · rw [hfc] at hps
        cases hps
      · have hv2 := hv
        unfold PhotoGroup.is_valid PhotoGroup.has_format_type at hv2
        simp only [Bool.or_eq_false_iff] at hv2
        obtain ⟨⟨⟨h1, h2⟩, h3⟩, h4⟩ := hv2
        rw [List.any_eq_false] at h1 h2 h3 h4
        have hj := h1 p hp
        have hr := h2 p hp
        have hh := h3 p hp
        have ho := h4 p hp
        rw [hfc] at hj hr hh ho
        have hsl : g.has_format_type .sidecar = true ∨ g.has_format_type .live_photo = true := by
          cases fc with
          | jpeg => simp at hj
          | raw => simp at hr
          | heic => simp at hh
          | other => simp at ho
          | sidecar =>
            left
            unfold PhotoGroup.has_format_type
            rw [List.any_eq_true]
            exact ⟨p, hp, by simp [hfc]⟩
          | live_photo =>
            right
            unfold PhotoGroup.has_format_type
            rw [List.any_eq_true]
            exact ⟨p, hp, by simp [hfc]⟩
        unfold PhotoGroup.has_only_supplementary_files
        rw [hv]
        rcases hsl with hs | hs <;> simp [hs]

/-- C6 counterexample: for the empty group both `is_valid` and
`has_only_supplementary_files` are false, so the two properties are not
complementary over all groups (exactly-one fails on the empty
group). -/
theorem claim_C6_counterexample :
    emptyGroup.is_valid = false ∧ emptyGroup.has_only_supplementary_files = false := by
  exact ⟨by decide, by decide⟩

/-- C6 amended: `is_valid` equals whether some Photo of the group has
format class jpeg, raw, heic or other; `is_valid` and
`has_only_supplementary_files` never hold together; and for groups
whose photos all carry a supported format class (which the `Photo`
constructor guarantees), exactly one of the two holds precisely when
the group is nonempty - the empty group has both false (so it is
invalid, but not `has_only_supplementary_files`). -/
theorem claim_C6_amended :
    ∀ g : PhotoGroup,
      g.is_valid = g.get_photos.any (fun p =>
        p.format_classification == some .jpeg || p.format_classification == some .raw ||
        p.format_classification == some .heic || p.format_classification == some .other) ∧
      (g.is_valid && g.has_only_supplementary_files) = false ∧
      (g.get_photos.all (fun p => (p.format_classification).isSome) = true →
        (g.is_valid || g.has_only_supplementary_files) = !g.get_photos.isEmpty) := by
  intro g
  refine ⟨?_, ?_, valid_or_supp g⟩
  · unfold PhotoGroup.is_valid PhotoGroup.has_format_type
    exact any_or4 g.get_photos _ _ _ _
  · cases h : g.is_valid with
    | true =>
      unfold PhotoGroup.has_only_supplementary_files
      rw [h]
      simp
    | false => simp

/-- C6 amended witness: the `note{.xmp}` group is nonempty with all
photos classified, so exactly one property holds there, and the empty
group evaluates the complement equation to false on both sides. -/
theorem claim_C6_amended_witness :
    (noteXmpGroup.is_valid || noteXmpGroup.has_only_supplementary_files) =
      !noteXmpGroup.get_photos.isEmpty ∧
    (emptyGroup.is_valid && emptyGroup.has_only_supplementary_files) = false :=
  ⟨(claim_C6_amended noteXmpGroup).2.2 (by decide), (claim_C6_amended emptyGroup).2.1⟩

/-! ## Helper lemmas: the sanitizer and path segmentation -/

theorem mem_squeezeUnderscores {c : Char} : ∀ {l : List Char},
    c ∈ squeezeUnderscores l → c ∈ l := by
  intro l
  induction l with
  | nil => intro h; exact absurd h (List.not_mem_nil c)
  | cons x xs ih =>
    intro h
    unfold squeezeUnderscores at h
    split at h
    · split at h
      · exact List.mem_cons_of_mem x (ih h)
      · rcases List.mem_cons.mp h with h' | h'
        · rw [h']
          exact List.mem_cons_self x xs
        · exact List.mem_cons_of_mem x (ih h')
    · rcases List.mem_cons.mp h with h' | h'
      · rw [h']
        exact List.mem_cons_self x xs
      · exact List.mem_cons_of_mem x (ih h')

theorem mem_dropWhile {c : Char} (p : Char → Bool) : ∀ {l : List Char},
    c ∈ l.dropWhile p → c ∈ l := by
  intro l
  induction l with
  | nil => intro h; exact h
  | cons x xs ih =>
    intro h
    rw [List.dropWhile_cons] at h
    split at h
    · exact List.mem_cons_of_mem x (ih h)
    · exact h

theorem mem_stripTrim {c : Char} {l : List Char} (h : c ∈ stripTrim l) : c ∈ l := by
  unfold stripTrim at h
  rw [List.mem_reverse] at h
  have h1 := mem_dropWhile trimChar h
  rw [List.mem_reverse] at h1
  exact mem_dropWhile trimChar h1

theorem mem_safe_filename {c : Char} {s : String} (h : c ∈ (safe_filename s).data) :
    ∃ e ∈ s.data, c = replUnsafe e := by
  unfold safe_filename at h
  have h1 := mem_squeezeUnderscores (mem_stripTrim h)
  rw [List.mem_map] at h1
  obtain ⟨e, he, hce⟩ := h1
  exact ⟨e, he, hce.symm⟩

theorem replUnsafe_eq_slash {e : Char} (h : replUnsafe e = '/') : e = '/' := by
  unfold replUnsafe at h
  split at h
  · cases h
  · exact h

theorem slash_not_mem_safe {s : String} (h : '/' ∉ s.data) :
    '/' ∉ (safe_filename s).data := by
  intro hc
  obtain ⟨e, he, hce⟩ := mem_safe_filename hc
  exact h (replUnsafe_eq_slash hce.symm ▸ he)

theorem splitOnChar_ne_nil (c : Char) : ∀ l : List Char, splitOnChar c l ≠ [] := by
  intro l
  induction l with
  | nil => exact fun h => by cases h
  | cons x xs ih =>
    unfold splitOnChar
    split
    · exact fun h => by cases h
    · split
      · exact fun h => by cases h
      · exact fun h => by cases h

theorem splitOnChar_not_mem (c : Char) : ∀ l : List Char,
    ∀ part ∈ splitOnChar c l, c ∉ part := by
  intro l
  induction l with
  | nil =>
    intro part hp
    rcases List.mem_singleton.mp hp with h
    rw [h]
    exact List.not_mem_nil c
  | cons x xs ih =>
    intro part hp
    unfold splitOnChar at hp
    split at hp
    · rcases List.mem_cons.mp hp with h' | h'
      · rw [h']
        exact List.not_mem_nil c
      · exact ih part h'
    · rename_i hx
      split at hp
      · rename_i hr
        exact absurd hr (splitOnChar_ne_nil c xs)
      · rename_i h t hr
        rcases List.mem_cons.mp hp with h' | h'
        · rw [h']
          intro hcm
          rcases List.mem_cons.mp hcm with h'' | h''
          · exact hx h''.symm
          · exact ih h (hr ▸ List.mem_cons_self h t) h''
        · exact ih part (hr ▸ List.mem_cons_of_mem h h')

theorem splitOnChar_length (c : Char) : ∀ l : List Char,
    (splitOnChar c l).length = l.count c + 1 := by
  intro l
  induction l with
  | nil => simp [splitOnChar]
  | cons x xs ih =>
    unfold splitOnChar
    split
    · rename_i hx
      simp only [List.length_cons, ih, List.count_cons]
      rw [hx]
      simp
    · rename_i hx
      split
      · rename_i hr
        exact absurd hr (splitOnChar_ne_nil c xs)
      · rename_i h t hr
        have : (h :: t).length = xs.count c + 1 := by rw [← hr]; exact ih
        simp only [List.length_cons] at this ⊢
        rw [List.count_cons]
        simp only [beq_iff_eq]
        rw [if_neg (fun he => hx he)]
        omega

theorem splitOnChar_eq_single {c : Char} {l : List Char} (h : c ∉ l) :
    splitOnChar c l = [l] := by
  induction l with
  | nil => rfl
  | cons x xs ih =>
    unfold splitOnChar
    have hx : ¬ x = c := fun he => h (he ▸ List.mem_cons_self x xs)
    rw [if_neg hx]
    rw [ih (fun hm => h (List.mem_cons_of_mem x hm))]

theorem joinWithChar_count (c : Char) : ∀ parts : List (List Char),
    (∀ p ∈ parts, c ∉ p) → (joinWithChar c parts).count c = parts.length - 1 := by
  intro parts
  induction parts with
  | nil => intro _; rfl
  | cons p rest ih =>
    intro h
    cases rest with
    | nil =>
      show p.count c = 0
      exact List.count_eq_zero.mpr (h p (List.mem_cons_self p []))
    | cons q rest2 =>
      show (p ++ c :: joinWithChar c (q :: rest2)).count c = (q :: rest2).length + 1 - 1
      rw [List.count_append, List.count_cons]
      rw [List.count_eq_zero.mpr (h p (List.mem_cons_self p _))]
      rw [ih (fun r hr => h r (List.mem_cons_of_mem p hr))]
      simp

/-- C7 counterexample: with scheme `{camera_make}` and an aggregated
camera make `A/B` the rendered base filename is `A/B`: the substituted
metadata value introduced a `/` that the sanitizer does not touch, so
the result has two path segments while the template has one. -/
theorem claim_C7_counterexample :
    generate_base_filename "{camera_make}" plainGroup slashMeta = "A/B" ∧
    countSlash (generate_base_filename "{camera_make}" plainGroup slashMeta) = 1 ∧
    countSlash "{camera_make}" = 0 := by
  exact ⟨by decide, by decide, by decide⟩

/-- C7 amended: sanitization is applied per `/`-separated segment of the
substituted string and never across a `/` boundary, so the rendered
result is exactly the `/`-join of the sanitized segments and its number
of `/` separators equals that of the post-substitution string - which,
because `/` is neither replaced nor removed by the sanitizer, may
exceed that of the template when a substituted metadata value contains `/`. -/
theorem claim_C7_amended :
    ∀ (scheme : String) (g : PhotoGroup) (md : PhotoMetadataWithSource),
      countSlash (generate_base_filename scheme g md) =
        countSlash (applyReplacements scheme g md) ∧
      generate_base_filename scheme g md =
        String.mk (joinWithChar '/'
          ((splitOnChar '/' (applyReplacements scheme g md).data).map
            (fun part => (safe_filename (String.mk part)).data))) := by
  intro scheme g md
  have hgen : generate_base_filename scheme g md =
      (if containsCharB (applyReplacements scheme g md) '/' then
        String.mk (joinWithChar '/'
          ((splitOnChar '/' (applyReplacements scheme g md).data).map
            (fun part => (safe_filename (String.mk part)).data)))
      else safe_filename (applyReplacements scheme g md)) := rfl
  rw [hgen]
  by_cases hc : containsCharB (applyReplacements scheme g md) '/' = true
  · rw [if_pos hc]
    refine ⟨?_, rfl⟩
    unfold countSlash
    rw [joinWithChar_count '/' _ ?hparts]
    case hparts =>
      intro part hpart
      rw [List.mem_map] at hpart
      obtain ⟨seg, hseg, hpe⟩ := hpart
      rw [← hpe]
      exact slash_not_mem_safe (splitOnChar_not_mem '/' _ seg hseg)
    rw [List.length_map, splitOnChar_length]
    simp
  · rw [if_neg hc]
    have hns : '/' ∉ (applyReplacements scheme g md).data := by
      unfold containsCharB at hc
      simpa using hc
    constructor
    · unfold countSlash
      rw [List.count_eq_zero.mpr (slash_not_mem_safe hns),
        List.count_eq_zero.mpr hns]
    · rw [splitOnChar_eq_single hns]
      rfl

theorem unsafeChar_replUnsafe (e : Char) : unsafeChar (replUnsafe e) = false := by
  unfold replUnsafe
  split
  · decide
  · rename_i h
    cases hb : unsafeChar e with
    | true => exact absurd hb h
    | false => rfl

theorem safe_filename_unsafe_free (s : String) :
    (safe_filename s).data.all (fun c => !unsafeChar c) = true := by
  rw [List.all_eq_true]
  intro c hc
  obtain ⟨e, he, hce⟩ := mem_safe_filename hc
  simp [hce, unsafeChar_replUnsafe e]

theorem noDouble_cons (a : Char) (l : List Char) :
    noDoubleUnderscore (a :: l) =
      (!(a == '_' && l.head? == some '_') && noDoubleUnderscore l) := by
  cases l with
  | nil => cases h : a == '_' <;> simp [noDoubleUnderscore, h]
  | cons b t => cases h : a == '_' <;> cases hb : b == '_' <;>
      simp [noDoubleUnderscore, h, hb]

theorem noDouble_squeeze (l : List Char) :
    noDoubleUnderscore (squeezeUnderscores l) = true := by
  induction l with
  | nil => rfl
  | cons x xs ih =>
    unfold squeezeUnderscores
    split
    · rename_i hx
      split
      · exact ih
      · rename_i hh
        rw [noDouble_cons, ih]
        have hb : ((squeezeUnderscores xs).head? == some '_') = false := by
          rw [beq_eq_false_iff_ne]
          exact hh
        rw [hb]
        simp
    · rename_i hx
      rw [noDouble_cons, ih]
      have hb : (x == '_') = false := by
        rw [beq_eq_false_iff_ne]
        exact hx
      rw [hb]
      simp

theorem noDouble_tail {a : Char} {l : List Char}
    (h : noDoubleUnderscore (a :: l) = true) : noDoubleUnderscore l = true := by
  rw [noDouble_cons, Bool.and_eq_true] at h
  exact h.2

theorem noDouble_dropWhile (p : Char → Bool) : ∀ {l : List Char},
    noDoubleUnderscore l = true → noDoubleUnderscore (l.dropWhile p) = true := by
  intro l
  induction l with
  | nil => intro h; exact h
  | cons x xs ih =>
    intro h
    rw [List.dropWhile_cons]
    split
    · exact ih (noDouble_tail h)
    · exact h

theorem noDouble_append_left : ∀ {xs ys : List Char},
    noDoubleUnderscore (xs ++ ys) = true → noDoubleUnderscore xs = true := by
  intro xs ys
  induction xs with
  | nil => intro _; rfl
  | cons x xt ih =>
    intro h
    rw [List.cons_append, noDouble_cons, Bool.and_eq_true] at h
    obtain ⟨h1, h2⟩ := h
    rw [noDouble_cons, ih h2, Bool.and_true]
    cases xt with
    | nil => cases hx : x == '_' <;> simp [hx]
    | cons z zt => simpa using h1

theorem noDouble_stripTrim {l : List Char} (h : noDoubleUnderscore l = true) :
    noDoubleUnderscore (stripTrim l) = true := by
  have hm : noDoubleUnderscore (l.dropWhile trimChar) = true := noDouble_dropWhile trimChar h
  have hsplit : l.dropWhile trimChar =
      ((l.dropWhile trimChar).reverse.dropWhile trimChar).reverse ++
        ((l.dropWhile trimChar).reverse.takeWhile trimChar).reverse := by
    conv_lhs => rw [← List.reverse_reverse (l.dropWhile trimChar)]
    conv_lhs =>
      rw [← List.takeWhile_append_dropWhile (p := trimChar)
        (l := (l.dropWhile trimChar).reverse)]
    rw [List.reverse_append]
  rw [hsplit] at hm
  exact noDouble_append_left hm

theorem noDouble_safe_filename (s : String) :
    noDoubleUnderscore (safe_filename s).data = true :=
  noDouble_stripTrim (noDouble_squeeze _)

theorem head?_dropWhile_not (p : Char → Bool) : ∀ (l : List Char) {c : Char},
    (l.dropWhile p).head? = some c → p c = false := by
  intro l
  induction l with
  | nil => intro c h; cases h
  | cons x xs ih =>
    intro c h
    rw [List.dropWhile_cons] at h
    split at h
    · exact ih h
    · rename_i hp
      have hcx : x = c := by
        rw [List.head?_cons] at h
        exact Option.some.inj h
      rw [← hcx]
      cases hpx : p x with
      | true => exact absurd hpx hp
      | false => rfl

theorem head?_append_left {xs ys : List Char} {c : Char} (h : xs.head? = some c) :
    (xs ++ ys).head? = some c := by
  cases xs with
  | nil => cases h
  | cons a t => simpa using h

theorem edge_stripTrim (l : List Char) : edgeClean (stripTrim l) = true := by
  unfold edgeClean
  have hsplit : l.dropWhile trimChar =
      ((l.dropWhile trimChar).reverse.dropWhile trimChar).reverse ++
        ((l.dropWhile trimChar).reverse.takeWhile trimChar).reverse := by
    conv_lhs => rw [← List.reverse_reverse (l.dropWhile trimChar)]
    conv_lhs =>
      rw [← List.takeWhile_append_dropWhile (p := trimChar)
        (l := (l.dropWhile trimChar).reverse)]
    rw [List.reverse_append]
  rw [Bool.and_eq_true]
  refine ⟨?_, ?_⟩
  · rcases hh : (stripTrim l).head? with _ | c
    · rfl
    · show (!trimChar c) = true
      have hmh : (l.dropWhile trimChar).head? = some c := by
        rw [hsplit]
        exact head?_append_left hh
      rw [head?_dropWhile_not trimChar l hmh]
      rfl
  · rcases hh : (stripTrim l).getLast? with _ | c
    · rfl
    · show (!trimChar c) = true
      have hdh : ((l.dropWhile trimChar).reverse.dropWhile trimChar).head? = some c := by
        rw [← List.getLast?_reverse]
        exact hh
      rw [head?_dropWhile_not trimChar (l.dropWhile trimChar).reverse hdh]
      rfl

theorem edge_safe_filename (s : String) : edgeClean (safe_filename s).data = true :=
  edge_stripTrim _

/-- C8 counterexample: the sanitizer replaces the colon but leaves the
interior space untouched, so the rendered raw name `Canon:EOS R5`
sanitizes to `Canon_EOS R5`, not to the claimed `Canon_EOS_R5`. -/
theorem claim_C8_counterexample :
    safe_filename "Canon:EOS R5" = "Canon_EOS R5" ∧
    (safe_filename "Canon:EOS R5" == "Canon_EOS_R5") = false := by
  exact ⟨by decide, by decide⟩

/-- C8 amended: the sanitizer replaces each of the characters
`< > : " | \\ ? *` with an underscore, collapses runs of underscores
and trims leading/trailing underscores and spaces - so its output never
contains one of those characters, never contains two adjacent
underscores, and never starts or ends with an underscore or space -
but it does not touch interior spaces: sanitizing `Canon:EOS R5`
yields `Canon_EOS R5`. -/
theorem claim_C8_amended :
    (∀ s : String,
      (safe_filename s).data.all (fun c => !unsafeChar c) = true ∧
      noDoubleUnderscore (safe_filename s).data = true ∧
      edgeClean (safe_filename s).data = true) ∧
    safe_filename "Canon:EOS R5" = "Canon_EOS R5" := by
  exact ⟨fun s => ⟨safe_filename_unsafe_free s, noDouble_safe_filename s,
    edge_safe_filename s⟩, by decide⟩

theorem lookup_dictInsert_self (k : String) (v : Photo) :
    ∀ l : List (String × Photo), List.lookup k (dictInsert k v l) = some v := by
  intro l
  induction l with
  | nil => simp [dictInsert, List.lookup]
  | cons kv rest ih =>
    obtain ⟨k', v'⟩ := kv
    unfold dictInsert
    by_cases h : (k' == k) = true
    · rw [if_pos h]
      simp [List.lookup]
    · rw [if_neg h]
      have hne : (k == k') = false := by
        rw [beq_eq_false_iff_ne]
        intro he
        apply h
        rw [he]
        exact beq_self_eq_true k'
      simp [List.lookup, hne, ih]

theorem lookup_dictInsert_ne (k k' : String) (v : Photo) (h : k' ≠ k) :
    ∀ l : List (String × Photo),
      List.lookup k' (dictInsert k v l) = List.lookup k' l := by
  intro l
  have hkk : (k' == k) = false := by
    rw [beq_eq_false_iff_ne]
    exact h
  induction l with
  | nil => simp [dictInsert, List.lookup, hkk]
  | cons kv rest ih =>
    obtain ⟨k2, v2⟩ := kv
    unfold dictInsert
    by_cases h2 : (k2 == k) = true
    · rw [if_pos h2]
      have hk2 : k2 = k := by
        rw [← beq_iff_eq (a := k2) (b := k)]
        exact h2
      simp [List.lookup, hkk, hk2]
    · rw [if_neg h2]
      by_cases h3 : (k' == k2) = true
      · simp [List.lookup, h3]
      · have h3' : (k' == k2) = false := by
          cases hb : (k' == k2) with
          | true => exact absurd hb h3
          | false => rfl
        simp [List.lookup, h3', ih]

/-- C9: `add_photo` fails (raises `ValueError`, modelled as
`Except.error`) exactly when the photo's basename differs from the
group's; the functional embedding leaves the original group untouched
on failure. On success, the photo is inserted under its extension key,
overwriting any prior photo at that key while every other key keeps its
prior binding, and the metadata cache is invalidated. -/
theorem claim_C9 :
    ∀ (g : PhotoGroup) (p : Photo),
      exceptOk (g.add_photo p) = (p.basename == g.basename) ∧
      (∀ g', g.add_photo p = .ok g' →
        g'.basename = g.basename ∧
        g'.metadata_cache = none ∧
        List.lookup p.extension g'.photos = some p ∧
        (∀ k, k ≠ p.extension →
          List.lookup k g'.photos = List.lookup k g.photos)) := by
  intro g p
  unfold PhotoGroup.add_photo
  by_cases h : p.basename = g.basename
  · rw [if_neg (fun hn => hn h)]
    constructor
    · simp [exceptOk, h]
    · intro g' hg'
      cases hg'
      exact ⟨rfl, rfl, lookup_dictInsert_self p.extension p g.photos,
        fun k hk => lookup_dictInsert_ne p.extension k p hk g.photos⟩
  · rw [if_pos h]
    constructor
    · simp [exceptOk]
      intro he
      exact absurd he h
    · intro g' hg'
      cases hg'

/-- C9 witness: on `shotGroup`, adding a photo with a different
basename fails, adding `addedJpg` succeeds and yields exactly
`shotGroupAdded`, where the `.jpg` key now maps to the new photo, the
`.xmp` key is untouched, and the cache is invalidated. -/
theorem claim_C9_witness :
    exceptOk (shotGroup.add_photo strangerPhoto) = false ∧
    exceptOk (shotGroup.add_photo addedJpg) = true ∧
    List.lookup ".jpg" shotGroupAdded.photos = some addedJpg ∧
    shotGroupAdded.metadata_cache = none ∧
    List.lookup ".xmp" shotGroupAdded.photos = List.lookup ".xmp" shotGroup.photos := by
  have h1 := (claim_C9 shotGroup strangerPhoto).1
  have h2 := (claim_C9 shotGroup addedJpg).1
  have h3 := (claim_C9 shotGroup addedJpg).2 shotGroupAdded (by rfl)
  exact ⟨h1.trans (by decide), h2.trans (by decide), h3.2.2.1, h3.2.1,
    h3.2.2.2 ".xmp" (by decide)⟩

end ImgMaster
